import Mathlib

/-!
# UnrealIRCd modules `tkldb` and `m_bansync`

A shallow embedding of `src/modules/tkldb.c` (the *LINE / spamfilter database)
and `src/modules/m_bansync.c` (the `~S` channel ban synchronisation extban),
followed by theorems about the embedded functions.

C strings are lists of characters (the characters before the terminating NUL),
files are lists of characters, `long` values are integers.  Module globals are
passed explicitly as a state record.
-/

namespace Unreal

/-! ## C strings and libc helpers -/

/-- A C string: the characters that precede the terminating NUL. -/
abbrev CStr := List Char

/-- The NUL character. -/
def NUL : Char := Char.ofNat 0

/-- The C string held by a byte buffer: everything before the first NUL byte. -/
def cstr : List Char → CStr
  | [] => []
  | c :: b => if c = NUL then [] else c :: cstr b

/-- Inner loop of libc `fgets`: copy at most `n` characters from the stream,
stopping right after a newline.  Returns the characters read and the rest of
the stream. -/
def fgets_read : Nat → List Char → List Char × List Char
  | 0, fd => ([], fd)
  | _ + 1, [] => ([], [])
  | n + 1, c :: fd =>
    if c = '\n' then ([c], fd)
    else (c :: (fgets_read n fd).1, (fgets_read n fd).2)

/-- libc `fgets(buf, size, fd)`: `none` at end of file (the C call returns NULL
and leaves `buf` alone), otherwise the bytes stored in `buf` and the rest of the
stream. -/
def fgets (size : Nat) (fd : List Char) : Option (List Char × List Char) :=
  match fd with
  | [] => none
  | _ :: _ => some (fgets_read (size - 1) fd)

/-- libc `strncmp(a, b, n) == 0`: the first `n` characters agree, where a string
that ends early must end together with the other one. -/
def strncmp_eq : Nat → CStr → CStr → Bool
  | 0, _, _ => true
  | _ + 1, [], [] => true
  | _ + 1, [], _ :: _ => false
  | _ + 1, _ :: _, [] => false
  | n + 1, a :: as, b :: bs => a = b && strncmp_eq n as bs

/-- libc `isspace` in the C locale. -/
def isspace (c : Char) : Bool :=
  c = ' ' || c = '\t' || c = '\n' || c = Char.ofNat 11 || c = Char.ofNat 12 || c = '\r'

/-- Largest value of a C `long` (LP64). -/
def LONG_MAX : Int := 9223372036854775807

/-- Smallest value of a C `long` (LP64). -/
def LONG_MIN : Int := -9223372036854775808

/-- Value of the leading run of decimal digits of a string, continuing from `acc`. -/
def digits_val : Nat → CStr → Nat
  | acc, [] => acc
  | acc, c :: s => if c.isDigit then digits_val (acc * 10 + (c.toNat - 48)) s else acc

/-- Drop leading white space (first step of `strtol`). -/
def skip_space : CStr → CStr
  | [] => []
  | c :: s => if isspace c then skip_space s else c :: s

/-- The value of an optional sign followed by a run of digits (the conversion
step of `strtol`); a text without digits has value 0. -/
def signed_val : CStr → Int
  | '-' :: r => - (digits_val 0 r : Int)
  | '+' :: r => (digits_val 0 r : Int)
  | r => (digits_val 0 r : Int)

/-- libc `atol` (`strtol(s, NULL, 10)`): optional white space, optional sign,
leading digits; out-of-range values saturate at `LONG_MIN` / `LONG_MAX`. -/
def atol (s : CStr) : Int :=
  if signed_val (skip_space s) > LONG_MAX then LONG_MAX
  else if signed_val (skip_space s) < LONG_MIN then LONG_MIN
  else signed_val (skip_space s)

/-- Decimal digit character of a number below ten. -/
def digit_char (d : Nat) : Char := Char.ofNat (48 + d)

/-- The decimal digits of `n`, most significant first; `fuel` bounds the number
of digits. -/
def fmt_digits : Nat → Nat → CStr
  | 0, _ => []
  | fuel + 1, n =>
    if n < 10 then [digit_char n] else fmt_digits fuel (n / 10) ++ [digit_char (n % 10)]

/-- The text printed by `%ld` for a non-negative value. -/
def fmt_nat (n : Nat) : CStr := fmt_digits (n + 1) n

/-- The text printed by `%ld`. -/
def fmt_ld (v : Int) : CStr :=
  if v < 0 then '-' :: fmt_nat v.natAbs else fmt_nat v.natAbs

/-- Result of a computation that may recurse without end or leave defined C
behaviour. -/
inductive Res (α : Type) where
  | ok : α → Res α
  | out_of_fuel : Res α
  | undefined : Res α
deriving DecidableEq, Repr

/-! ## Host helpers used by `tkldb` -/

/-- Skip the leading separator characters (first loop of `strtoken`). -/
def skip_seps (fs : CStr) : CStr → CStr
  | [] => []
  | c :: s => if c ∈ fs then skip_seps fs s else c :: s

/-- Scan the token content (second loop of `strtoken`): the token and the text
starting at the separator that ended it (empty at end of string). -/
def span_token (fs : CStr) : CStr → CStr × CStr
  | [] => ([], [])
  | c :: s => if c ∈ fs then ([], c :: s) else (c :: (span_token fs s).1, (span_token fs s).2)

/-- Modelled from the spec: the host's `strtoken(&save, str, fs)` (support.c, not
under src/), the re-entrant tokenizer the loader uses: it skips leading
separators, returns the text up to the next separator, and saves the position
after that separator; with an empty separator set it returns the remainder of
the line verbatim.  `none` stands for NULL.  The result is the token and the
new value of `save`. -/
def strtoken (save : Option CStr) (str : Option CStr) (fs : CStr) :
    Option CStr × Option CStr :=
  let pos := match str with
    | some s => some s
    | none => save
  match pos with
  | none => (none, none)
  | some s =>
    match skip_seps fs s with
    | [] => (none, none)
    | c :: t =>
      match (span_token fs (c :: t)).2 with
      | [] => (some (span_token fs (c :: t)).1, none)
      | _ :: rest => (some (span_token fs (c :: t)).1, some rest)

/-- Continue tokenizing (`strtoken(&p, NULL, fs)`), as an option: the token and
the new save pointer, or `none` when the C call returns NULL. -/
def next_token (p : Option CStr) (fs : CStr) : Option (CStr × Option CStr) :=
  match strtoken p none fs with
  | (some t, p1) => some (t, p1)
  | (none, _) => none

/-- The host facts `tkldb` relies on that are declared outside src/: the server
name `me.name`, the restriction-kind flags `TKL_SPAMF` and `TKL_NICK`, and the
function `tkl_typetochar` that maps a restriction type to its type character. -/
structure Host where
  me_name : CStr
  TKL_SPAMF : Nat
  TKL_NICK : Nat
  tkl_typetochar : Nat → Char

/-! ## `tkldb`: state -/

/-- One invocation of the host's add-restriction command `m_tkl(&me, &me, parc, parv)`,
together with the value the module's `recursion` flag has while the command (and
the hooks it fires) runs. -/
structure TklCall where
  recursion : Int
  parc : Nat
  parv : List CStr
deriving DecidableEq, Repr

/-- The globals of `tkldb.c` (`cfg.file`, `has_booted`, `recursion`) and the log
of commands submitted to the host so far. -/
structure Tkldb where
  file : CStr
  has_booted : Int
  recursion : Int
  log : List TklCall
deriving DecidableEq, Repr

/-- The file system: path to content, `none` when the file cannot be opened. -/
abbrev FS := CStr → Option (List Char)

/-- Modelled from the spec: the host's add-restriction command entry point
`m_tkl` (m_tkl.c, not under src/).  The model records the submitted argument
vector and the re-entrancy flag visible to the hooks the command fires. -/
def m_tkl (st : Tkldb) (parc : Nat) (parv : List CStr) : Tkldb :=
  { st with log := st.log ++ [⟨st.recursion, parc, parv⟩] }

/-! ## `tkldb`: loading -/

/-- Cut off a string at the first CR or LF (`stripcrlf`). -/
def stripcrlf : CStr → CStr
  | [] => []
  | c :: buf => if c = '\n' ∨ c = '\r' then [] else c :: stripcrlf buf

/-- The parse of one line by the body of the `while` loop of `load_tkls`: the
`parc` and `parv` of the command to submit, or `none` when the line is skipped
by a `continue`. -/
def parse_line (h : Host) (now : Int) (buf0 : CStr) : Option (Nat × List CStr) :=
  let buf := stripcrlf buf0
  if buf.head? = some '#' then none
  else
    match strtoken none (some buf) [' '] with
    | (none, _) => none
    | (some type, p) =>
      if type.head? ≠ some 'F' ∧ type.head? ≠ some 'f' then do
        let (usermask, p) ← next_token p [' ']
        let (hostmask, p) ← next_token p [' ']
        let (set_by, p) ← next_token p [' ']
        let (set_at, p) ← next_token p [' ']
        let (expire_at, p) ← next_token p [' ']
        let exp := atol expire_at
        if exp > 0 ∧ exp < now then none
        else do
          let (reason, _) ← next_token p []
          some (9, [h.me_name, ['+'], type, usermask, hostmask, set_by, expire_at, set_at,
                    reason])
      else do
        let (target, p) ← next_token p [' ']
        let (action, p) ← next_token p [' ']
        let (set_by, p) ← next_token p [' ']
        let (set_at, p) ← next_token p [' ']
        let (expire_at, p) ← next_token p [' ']
        let exp := atol expire_at
        if exp > 0 ∧ exp < now then none
        else do
          let (tkl_duration, p) ← next_token p [' ']
          let (tkl_reason, p) ← next_token p [' ']
          let (regex, _) ← next_token p []
          some (11, [h.me_name, ['+'], type, target, action, set_by, expire_at, set_at,
                     tkl_duration, tkl_reason, regex])

/-- Body of the `while` loop of `load_tkls` for the buffer returned by `fgets`:
a skipped line leaves the state alone; otherwise `recursion` is raised, the
command is submitted through `m_tkl`, and `recursion` is cleared. -/
def load_line (h : Host) (now : Int) (st : Tkldb) (buf : CStr) : Tkldb :=
  match parse_line h now buf with
  | none => st
  | some (parc, tkl) =>
    let st1 := { st with recursion := 1 }
    let st2 := m_tkl st1 parc tkl
    { st2 with recursion := 0 }

/-- The `while (fgets(buf, sizeof(buf), fd))` loop of `load_tkls`.  Every
iteration consumes at least one character of the stream, so a fuel of the
stream length is never exhausted. -/
def load_loop (h : Host) (now : Int) : Nat → List Char → Tkldb → Tkldb
  | 0, _, st => st
  | fuel + 1, fd, st =>
    match fgets 2048 fd with
    | none => st
    | some (buf, rest) => load_loop h now fuel rest (load_line h now st (cstr buf))

/-- The signature text compared by `load_tkls`. -/
def signature : CStr := "# TKL Database".toList

/-- The function `load_tkls` of tkldb.c, at current time `now` (`TStime()`). -/
def load_tkls (h : Host) (now : Int) (fs : FS) (st : Tkldb) : Tkldb :=
  if st.has_booted ≠ 0 then st
  else
    match fs st.file with
    | none => st
    | some fd =>
      let hdr : List Char × List Char :=
        match fgets 2048 fd with
        | none => ([], fd)
        | some r => r
      if strncmp_eq 14 (cstr hdr.1) signature = false then st
      else load_loop h now hdr.2.length hdr.2 st

/-! ## `tkldb`: saving -/

/-- A restriction record (`aTKline`) as far as `save_tkls` reads it.  `addr`
is the address of the list node (its pointer identity); `tkl_duration` and
`tkl_reason` are the fields of `ptr.spamf`, meaningful for spamfilters. -/
structure aTKline where
  addr : Nat
  type : Nat
  usermask : CStr
  hostmask : CStr
  reason : CStr
  setby : CStr
  expire_at : Int
  set_at : Int
  tkl_duration : Int
  tkl_reason : CStr
deriving DecidableEq, Repr

/-- Modelled from the spec: the host's `tkl_hash` (m_tkl.c, not under src/),
which maps a bucket letter to the index of its bucket in `tklines`: the offset
of the letter in the alphabet, for either case. -/
def tkl_hash (c : Char) : Nat :=
  if c.isUpper then c.toNat - 65 else c.toNat - 97

/-- The values of `c` in `for (c = 'a'; c <= 'z'; c++)`: the 26 lower-case letters. -/
def bucket_letters : List Char :=
  (List.range 26).map (fun i => Char.ofNat (97 + i))

/-- Outcome of the host I/O primitives during one `save_tkls` call: whether
`fopen` succeeds, whether the `k`-th `fprintf` call succeeds, whether `fclose`
succeeds, whether `rename` succeeds, and, for a save abandoned after a failed
`fprintf`, how many characters of the output handed to the stream reached the
file (the stream is buffered, so this is up to the C library and the system). -/
structure IoOutcome where
  fopen_ok : Bool
  fprintf_ok : Nat → Bool
  fclose_ok : Bool
  rename_ok : Bool
  flushed : Nat

/-- The stream `fd` being written: the text handed to it so far and the number of
`fprintf` calls made. -/
structure OutFile where
  out : List Char
  nprintf : Nat
deriving DecidableEq, Repr

/-- A call `fprintf(fd, ...) < 0` test: `ok` with the text appended, or `error`
(the `goto ioerr` path) carrying the stream with the text of the failing call,
of which any part may have been written. -/
def fprintf (io : IoOutcome) (fd : OutFile) (text : List Char) : Except OutFile OutFile :=
  if io.fprintf_ok fd.nprintf then .ok ⟨fd.out ++ text, fd.nprintf + 1⟩
  else .error ⟨fd.out ++ text, fd.nprintf + 1⟩

/-- The header written by `save_tkls`: `# TKL Database v%d %ld\n` with
`TKLDB_FILE_VERSION` (1) and `TStime()`. -/
def header_line (now : Int) : List Char :=
  "# TKL Database v".toList ++ fmt_ld 1 ++ [' '] ++ fmt_ld now ++ ['\n']

/-- The text of `%c %s %s %s %ld %ld %ld %s %s\n` for a spamfilter record. -/
def spamf_line (h : Host) (tkl : aTKline) : List Char :=
  [h.tkl_typetochar tkl.type] ++ [' '] ++ tkl.usermask ++ [' '] ++ tkl.hostmask ++ [' ']
    ++ tkl.setby ++ [' '] ++ fmt_ld tkl.set_at ++ [' '] ++ fmt_ld tkl.expire_at ++ [' ']
    ++ fmt_ld tkl.tkl_duration ++ [' '] ++ tkl.tkl_reason ++ [' '] ++ tkl.reason ++ ['\n']

/-- The text of `%c %s %s %s %ld %ld %s\n` for a regular record. -/
def regular_line (h : Host) (tkl : aTKline) : List Char :=
  [h.tkl_typetochar tkl.type] ++ [' '] ++ tkl.usermask ++ [' '] ++ tkl.hostmask ++ [' ']
    ++ tkl.setby ++ [' '] ++ fmt_ld tkl.set_at ++ [' '] ++ fmt_ld tkl.expire_at ++ [' ']
    ++ tkl.reason ++ ['\n']

/-- Body of the inner `for` loop of `save_tkls` for one record. -/
def save_record (h : Host) (io : IoOutcome) (except_this_one : Option Nat)
    (fd : OutFile) (tkl : aTKline) : Except OutFile OutFile :=
  if some tkl.addr = except_this_one then .ok fd
  else if tkl.type = h.TKL_SPAMF ∨ tkl.type = h.TKL_NICK then .ok fd
  else if tkl.type &&& h.TKL_SPAMF ≠ 0 then fprintf io fd (spamf_line h tkl)
  else fprintf io fd (regular_line h tkl)

/-- The inner `for (tkl = tklines[..]; tkl; tkl = tkl->next)` loop. -/
def save_bucket (h : Host) (io : IoOutcome) (except_this_one : Option Nat) :
    OutFile → List aTKline → Except OutFile OutFile
  | fd, [] => .ok fd
  | fd, tkl :: next =>
    match save_record h io except_this_one fd tkl with
    | .ok fd1 => save_bucket h io except_this_one fd1 next
    | .error fd1 => .error fd1

/-- The outer `for (c = 'a'; c <= 'z'; c++)` loop over the remaining letters. -/
def save_buckets (h : Host) (io : IoOutcome) (tklines : Nat → List aTKline)
    (except_this_one : Option Nat) : OutFile → List Char → Except OutFile OutFile
  | fd, [] => .ok fd
  | fd, c :: cs =>
    match save_bucket h io except_this_one fd (tklines (tkl_hash c)) with
    | .ok fd1 => save_buckets h io tklines except_this_one fd1 cs
    | .error fd1 => .error fd1

/-- Everything `save_tkls` prints to the temporary stream: the header, then the
records. -/
def save_stream (h : Host) (now : Int) (io : IoOutcome) (tklines : Nat → List aTKline)
    (except_this_one : Option Nat) : Except OutFile OutFile :=
  match fprintf io ⟨[], 0⟩ (header_line now) with
  | .ok fd => save_buckets h io tklines except_this_one fd bucket_letters
  | .error fd => .error fd

/-- Store `content` under `path`. -/
def fs_write (fs : FS) (path : CStr) (content : List Char) : FS :=
  fun p => if p = path then some content else fs p

/-- A successful `rename(old, new)`. -/
def fs_rename (fs : FS) (old new : CStr) : FS :=
  fun p => if p = new then fs old else if p = old then none else fs p

/-- The name built by `snprintf(tmpname, sizeof(tmpname), "%s.tmp", cfg.file)`
with `char tmpname[512]`. -/
def tmpname (file : CStr) : CStr := (file ++ ".tmp".toList).take 511

/-- The function `save_tkls(except_this_one)` of tkldb.c at current time `now`:
the file system it leaves.  `except_this_one` is the address of the record
pending deletion, `none` for NULL.  When `fopen` fails nothing is touched.  When
a `fprintf` fails, `ioerr` closes the stream and the temporary file keeps the
part of the output that reached it.  When `fclose` fails, `ioerr` calls
`fclose(fd)` again on the stream that was just closed, which is undefined
behaviour.  When `rename` fails the temporary file keeps the whole output. -/
def save_tkls (h : Host) (now : Int) (io : IoOutcome) (tklines : Nat → List aTKline)
    (except_this_one : Option Nat) (st : Tkldb) (fs : FS) : Res FS :=
  if io.fopen_ok = false then .ok fs
  else
    match save_stream h now io tklines except_this_one with
    | .error fd => .ok (fs_write fs (tmpname st.file) (fd.out.take io.flushed))
    | .ok fd =>
      if io.fclose_ok = false then .undefined
      else if io.rename_ok = false then .ok (fs_write fs (tmpname st.file) fd.out)
      else .ok (fs_rename (fs_write fs (tmpname st.file) fd.out) (tmpname st.file) st.file)

/-- An `IoOutcome` in which every primitive succeeds. -/
def io_ok : IoOutcome := ⟨true, fun _ => true, true, true, 0⟩

/-! ## `tkldb`: module entry points -/

/-- The part of `MOD_INIT(tkldb)` that touches the module state:
`has_booted = loop.ircd_booted` and `set_config_defaults()`. -/
def tkldb_MOD_INIT (ircd_booted : Int) (st : Tkldb) : Tkldb :=
  { st with has_booted := ircd_booted, file := "tkl.db".toList }

/-- The entry point `MOD_LOAD(tkldb)`: it calls `load_tkls()`. -/
def tkldb_MOD_LOAD (h : Host) (now : Int) (fs : FS) (st : Tkldb) : Tkldb :=
  load_tkls h now fs st

/-- The entry point `MOD_UNLOAD(tkldb)`: it calls `save_tkls(NULL)`. -/
def tkldb_MOD_UNLOAD (h : Host) (now : Int) (io : IoOutcome) (tklines : Nat → List aTKline)
    (st : Tkldb) (fs : FS) : Res FS :=
  save_tkls h now io tklines none st fs

/-- The hook `tkldb_tkl_add`, run by the host when a restriction has been added:
nothing while `recursion` is set, otherwise `save_tkls(NULL)`. -/
def tkldb_tkl_add (h : Host) (now : Int) (io : IoOutcome) (tklines : Nat → List aTKline)
    (st : Tkldb) (fs : FS) : Res FS :=
  if st.recursion ≠ 0 then .ok fs
  else save_tkls h now io tklines none st fs

/-- The hook `tkldb_tkl_del`, run by the host when the restriction `tk` is about to
be removed: `save_tkls(tk)`. -/
def tkldb_tkl_del (h : Host) (now : Int) (io : IoOutcome) (tklines : Nat → List aTKline)
    (tk : aTKline) (st : Tkldb) (fs : FS) : Res FS :=
  save_tkls h now io tklines (some tk.addr) st fs

/-! ## `m_bansync`: parameter validation -/

/-- The extended-ban letter `BSBANCHAR`. -/
def BSBANCHAR : Char := 'S'

/-- Some suffix of the text (the text itself included) satisfies `f`. -/
def any_suffix (f : CStr → Bool) : CStr → Bool
  | [] => f []
  | t :: ts => f (t :: ts) || any_suffix f ts

/-- Glob matching of a text against a mask: `?` stands for one arbitrary
character and `*` for any run of characters. -/
def glob_match : CStr → CStr → Bool
  | [], text => text.isEmpty
  | m :: ms, text =>
    if m = '*' then any_suffix (glob_match ms) text
    else
      match text with
      | [] => false
      | t :: ts => (m = '?' || m = t) && glob_match ms ts

/-- Modelled from the spec: the host's `match(mask, text)` (match.c, not under
src/), which returns 0 exactly when the text glob-matches the mask. -/
def irc_match (mask text : CStr) : Int :=
  if glob_match mask text then 0 else 1

/-- libc `strchr(s, c) != NULL`. -/
def strchr_found : CStr → Char → Bool
  | [], _ => false
  | d :: s, c => d = c || strchr_found s c

/-- The validator `bs_param`: `none` stands for NULL. -/
def bs_param (param : CStr) : Option CStr :=
  if irc_match "~?:#*".toList param ≠ 0 ∨ strchr_found param ',' = true then none
  else some param

/-! ## `m_bansync`: the ban check -/

/-- The recursion guard `bs_recursion_guard`: an array of `bs_recursion_guard_size`
string pointers, `none` for NULL.  The size is the length of the list. -/
abbrev Guard := List (Option CStr)

/-- The guard allocated by `MOD_INIT(m_bansync)`: 32 empty slots. -/
def bs_guard_init : Guard := List.replicate 32 none

/-- The guard after `MOD_UNLOAD(m_bansync)`: freed, of size 0. -/
def bs_guard_unloaded : Guard := []

/-- The first loop of `bs_banned`: some occupied slot holds exactly `chname`
(`strcmp(..) == 0`). -/
def guard_has : Guard → CStr → Bool
  | [], _ => false
  | e :: g, chname =>
    (match e with
      | some s => decide (s = chname)
      | none => false) || guard_has g chname

/-- The second loop of `bs_banned`: index of the first NULL slot, if any. -/
def first_free : Guard → Option Nat
  | [] => none
  | e :: g =>
    match e with
    | none => some 0
    | some _ => (first_free g).map (fun i => i + 1)

/-- libc `strtok(str, delim)` with its hidden position made explicit: the
token (or `none` for NULL) and the new position. -/
def strtok (save : CStr) (str : Option CStr) (delim : CStr) : Option CStr × CStr :=
  let s := match str with
    | some s => s
    | none => save
  match skip_seps delim s with
  | [] => (none, [])
  | c :: t =>
    match (span_token delim (c :: t)).2 with
    | [] => (some (span_token delim (c :: t)).1, [])
    | _ :: rest => (some (span_token delim (c :: t)).1, rest)

/-- The slot reservation of `bs_banned`: the first NULL slot takes a copy of the
name; when there is none (`!havespace`) the guard grows by 32 slots, the old
entries are copied over and the first new slot takes the name.  The result is the
index `i` and the guard. -/
def reserve_slot (g : Guard) (chantok : CStr) : Nat × Guard :=
  match first_free g with
  | some i => (i, g.set i (some chantok))
  | none => (g.length, (g ++ List.replicate 32 none).set g.length (some chantok))

/-- A ban-list entry (`Ban`), reduced to its text. -/
structure Ban where
  banstr : CStr
deriving DecidableEq, Repr

/-- A channel (`aChannel`) as far as the ban check reads it. -/
structure aChannel where
  chname : CStr
  banlist : List Ban
deriving DecidableEq, Repr

/-- The host services `bs_banned` and the ban check rely on: `get_channel` with
`!CREATE` (name lookup, `none` when there is no such channel) and the host's
test of an ordinary ban entry against a client for a check kind. -/
structure ChanHost (Client : Type) where
  get_channel : CStr → Option aChannel
  ban_matches : Client → aChannel → CStr → Int → Bool

/-- The body of `bs_banned(sptr, chptr, ban, chktype)`, with the host's
`is_banned(sptr, chan, chktype)` passed in as `is_banned`.  The state is the
guard; the result is the returned int and the guard on return.  A `ban` of 64
or more characters leaves `banstr` unterminated after `strncpy`, which the
model reports as `undefined`. -/
def bs_banned_body {Client : Type} (H : ChanHost Client)
    (is_banned : aChannel → Guard → Res (Option Ban × Guard))
    (chptr : aChannel) (ban : CStr) (g : Guard) : Res (Int × Guard) :=
  if guard_has g chptr.chname then .ok (0, g)
  else if 64 ≤ ban.length then .undefined
  else
    let banstr := ban
    let t1 := strtok [] (some banstr) [':']
    let t2 := strtok t1.2 none [':']
    match t2.1 with
    | none => .ok (0, g)
    | some chantok =>
      match H.get_channel chantok with
      | none => .ok (0, g)
      | some chan =>
        let slot : Nat × Guard := reserve_slot g chantok
        match is_banned chan slot.2 with
        | .ok (banned, g2) => .ok (if banned.isSome then 1 else 0, g2.set slot.1 none)
        | .out_of_fuel => .out_of_fuel
        | .undefined => .undefined

/-- The host hands a ban entry to `bs_banned` when it is an extended ban of
letter `BSBANCHAR`: the text starts with `~S`. -/
def is_bansync_ban : CStr → Bool
  | '~' :: c :: _ => c = BSBANCHAR
  | _ => false

/-- Modelled from the spec: the loop of the host's generic ban check `is_banned`
(channel.c, not under src/) over a ban list: a `~S` entry is decided by the
extended-ban callback `ext`, any other entry by the host's own matching
`direct`; the first entry that matches is returned. -/
def is_banned_loop (ext : CStr → Guard → Res (Int × Guard)) (direct : CStr → Bool) :
    List Ban → Guard → Res (Option Ban × Guard)
  | [], g => .ok (none, g)
  | b :: bs, g =>
    if is_bansync_ban b.banstr then
      match ext b.banstr g with
      | .ok (r, g1) => if r ≠ 0 then .ok (some b, g1) else is_banned_loop ext direct bs g1
      | .out_of_fuel => .out_of_fuel
      | .undefined => .undefined
    else if direct b.banstr then .ok (some b, g)
    else is_banned_loop ext direct bs g

/-- Modelled from the spec: the host's generic ban check
`is_banned(sptr, chptr, chktype)` with `bs_banned` registered as the `~S`
callback.  `fuel` bounds the nesting depth of ban checks; `out_of_fuel` means
the nesting went deeper. -/
def is_banned {Client : Type} (H : ChanHost Client) :
    Nat → Client → aChannel → Int → Guard → Res (Option Ban × Guard)
  | 0, _, _, _, _ => .out_of_fuel
  | fuel + 1, sptr, chptr, chktype, g =>
    is_banned_loop
      (fun ban g1 =>
        bs_banned_body H (fun chan g2 => is_banned H fuel sptr chan chktype g2) chptr ban g1)
      (fun banstr => H.ban_matches sptr chptr banstr chktype)
      chptr.banlist g

/-- The function `bs_banned(sptr, chptr, ban, chktype)` of m_bansync.c, where the
nested host ban check may nest `fuel` levels deep. -/
def bs_banned {Client : Type} (H : ChanHost Client) (fuel : Nat) (sptr : Client)
    (chptr : aChannel) (ban : CStr) (chktype : Int) (g : Guard) : Res (Int × Guard) :=
  bs_banned_body H (fun chan g2 => is_banned H fuel sptr chan chktype g2) chptr ban g

/-! ## Vocabulary for data lines -/

/-- A space-delimited field of a data line: non-empty, free of space, CR and LF. -/
def is_token (f : CStr) : Bool :=
  !f.isEmpty && f.all (fun c => c != ' ' && c != '\n' && c != '\r')

/-- The free-text field that ends a data line: non-empty, free of CR and LF. -/
def is_text (f : CStr) : Bool :=
  !f.isEmpty && f.all (fun c => c != '\n' && c != '\r')

/-- What `fgets` leaves after the text of a line: nothing (end of file or full
buffer) or a line terminator, which starts with CR or LF. -/
def is_eol (e : CStr) : Bool :=
  match e with
  | [] => true
  | c :: _ => c = '\n' || c = '\r'

/-- Fields joined by single spaces. -/
def join_sp : List CStr → CStr
  | [] => []
  | [f] => f
  | f :: g :: fs => f ++ ' ' :: join_sp (g :: fs)

/-- A text is free of CR and LF. -/
def no_crlf (s : CStr) : Prop := ∀ c ∈ s, c ≠ '\n' ∧ c ≠ '\r'

/-- The fields of a regular data line are well formed: space-delimited tokens
followed by a free-text reason, the type not opening a comment (`#`) or a
spamfilter (`F`, `f`). -/
def regular_fields_ok (type usermask hostmask set_by set_at expire_at reason : CStr) : Bool :=
  is_token type && (type.head? != some '#') && (type.head? != some 'F')
    && (type.head? != some 'f') && is_token usermask && is_token hostmask && is_token set_by
    && is_token set_at && is_token expire_at && is_text reason

/-- The fields of a spamfilter data line are well formed: space-delimited tokens
followed by a free-text regex, the type starting with `F` or `f`. -/
def spamf_fields_ok
    (type target action set_by set_at expire_at tkl_duration tkl_reason regex : CStr) : Bool :=
  is_token type && (type.head? == some 'F' || type.head? == some 'f')
    && is_token target && is_token action && is_token set_by && is_token set_at
    && is_token expire_at && is_token tkl_duration && is_token tkl_reason && is_text regex

/-- A first line that passes the signature test of `load_tkls` and fits its
read buffer: it begins with `# TKL Database`, holds no newline and at most 2046
characters. -/
def valid_header (hdr : List Char) : Prop :=
  signature <+: hdr ∧ '\n' ∉ hdr ∧ hdr.length ≤ 2046

/-- A stretch of a file made of complete lines: empty, or ending in a newline. -/
def complete_lines (s : List Char) : Prop := s = [] ∨ ∃ p, s = p ++ ['\n']

/-- All records of the in-memory set: the 26 buckets of `tklines` in index
order, each in list order. -/
def all_tkls (tklines : Nat → List aTKline) : List aTKline :=
  (List.range 26).flatMap tklines

/-- The record is one `save_tkls` leaves out: it is the record pending deletion,
or its kind is configuration-sourced (local spamfilter, local nick-ban). -/
def is_skipped (h : Host) (except_this_one : Option Nat) (r : aTKline) : Bool :=
  decide (some r.addr = except_this_one) || decide (r.type = h.TKL_SPAMF)
    || decide (r.type = h.TKL_NICK)

/-- The line `save_tkls` prints for a record it does not skip. -/
def tkl_line (h : Host) (r : aTKline) : List Char :=
  if r.type &&& h.TKL_SPAMF ≠ 0 then spamf_line h r else regular_line h r

/-- The records `save_tkls` writes, in the order it writes them. -/
def saved_tkls (h : Host) (tklines : Nat → List aTKline) (except_this_one : Option Nat) :
    List aTKline :=
  (all_tkls tklines).filter (fun r => !is_skipped h except_this_one r)

/-- The record survives the line format of the database: its type character is
a printable token character other than `#` that is `F` or `f` exactly for a
spamfilter, its masks, setter (and, for a spamfilter, tkl-reason) are non-empty
and free of spaces, its reason is non-empty, no field holds CR, LF or NUL, its
expiry is a `long`, and its line fits the 2048-byte read buffer of `load_tkls`. -/
def storable (h : Host) (r : aTKline) : Bool :=
  is_token [h.tkl_typetochar r.type] && (h.tkl_typetochar r.type != '#')
    && (decide (h.tkl_typetochar r.type = 'F' ∨ h.tkl_typetochar r.type = 'f')
          == decide (r.type &&& h.TKL_SPAMF ≠ 0))
    && is_token r.usermask && is_token r.hostmask && is_token r.setby && is_text r.reason
    && (decide (r.type &&& h.TKL_SPAMF = 0) || is_token r.tkl_reason)
    && decide (NUL ∉ tkl_line h r)
    && decide (LONG_MIN ≤ r.expire_at ∧ r.expire_at ≤ LONG_MAX)
    && decide ((tkl_line h r).length ≤ 2047)

/-- The add-restriction command that carries the fields of a record: the regular
layout with 9 arguments, or the spamfilter layout with 11. -/
def replayed_call (h : Host) (r : aTKline) : TklCall :=
  if r.type &&& h.TKL_SPAMF ≠ 0 then
    ⟨1, 11, [h.me_name, ['+'], [h.tkl_typetochar r.type], r.usermask, r.hostmask, r.setby,
             fmt_ld r.expire_at, fmt_ld r.set_at, fmt_ld r.tkl_duration, r.tkl_reason,
             r.reason]⟩
  else
    ⟨1, 9, [h.me_name, ['+'], [h.tkl_typetochar r.type], r.usermask, r.hostmask, r.setby,
            fmt_ld r.expire_at, fmt_ld r.set_at, r.reason]⟩

/-- The state after `load_tkls` has submitted one command: the log grows by that
command, run with `recursion` raised, and `recursion` is clear again. -/
def submitted (st : Tkldb) (parc : Nat) (parv : List CStr) : Tkldb :=
  { st with recursion := 0, log := st.log ++ [⟨1, parc, parv⟩] }

/-- The channel name `bs_banned` extracts from a ban text: the second token
between colons. -/
def ban_target (ban : CStr) : Option CStr :=
  (strtok (strtok [] (some ban) [':']).2 none [':']).1

/-- The client matches a direct (not `~S`) ban of the channel. -/
def direct_banned {Client : Type} (H : ChanHost Client) (sptr : Client) (chan : aChannel)
    (chktype : Int) : Bool :=
  chan.banlist.any
    (fun b => !is_bansync_ban b.banstr && H.ban_matches sptr chan b.banstr chktype)

/-- The `~S` ban is well formed for the lookup: it fits `banstr[64]` with its
terminator, and the channel its target resolves to is named exactly as the
target is spelled. -/
def exact_target {Client : Type} (H : ChanHost Client) (ban : CStr) : Prop :=
  ban.length < 64 ∧
    ∀ tok T, ban_target ban = some tok → H.get_channel tok = some T → T.chname = tok

/-- Some `~S` ban of the list names a channel that exists and has a direct ban
the client matches. -/
def delegated_banned {Client : Type} (H : ChanHost Client) (sptr : Client) (bans : List Ban)
    (chktype : Int) : Prop :=
  ∃ b ∈ bans, is_bansync_ban b.banstr = true ∧
    ∃ tok T, ban_target b.banstr = some tok ∧ H.get_channel tok = some T ∧
      direct_banned H sptr T chktype = true

/-- No slot of the guard is occupied. -/
def guard_idle (g : Guard) : Prop := ∀ e ∈ g, e = none

/-! ## Sample values -/

/-- A host whose server name is `irc.example.org`, with the flag values and the
type characters of UnrealIRCd 3.2 (`TKL_KILL` 1, `TKL_ZAP` 2, `TKL_GLOBAL` 4,
`TKL_SHUN` 8, `TKL_SPAMF` 32, `TKL_NICK` 64). -/
def sample_host : Host where
  me_name := "irc.example.org".toList
  TKL_SPAMF := 32
  TKL_NICK := 64
  tkl_typetochar := fun t =>
    if t &&& 4 ≠ 0 then
      if t &&& 1 ≠ 0 then 'G' else if t &&& 2 ≠ 0 then 'Z' else if t &&& 8 ≠ 0 then 's'
      else if t &&& 32 ≠ 0 then 'F' else if t &&& 64 ≠ 0 then 'Q' else NUL
    else
      if t &&& 2 ≠ 0 then 'z' else if t &&& 1 ≠ 0 then 'k'
      else if t &&& 32 ≠ 0 then 'f' else if t &&& 64 ≠ 0 then 'q' else NUL

/-- The module state right after `MOD_INIT` during the boot of the host. -/
def boot_state : Tkldb := tkldb_MOD_INIT 0 ⟨[], 0, 0, []⟩

/-- A file system that holds only `tkl.db`, with the given content. -/
def sample_fs (content : List Char) : FS :=
  fun p => if p = "tkl.db".toList then some content else none

/-- A database file with one global Z-line. -/
def sample_db : List Char :=
  "# TKL Database v1 1400000000\nZ * 1.2.3.4 admin 100 0 spam\n".toList

/-- The command replayed for the data line of `sample_db`. -/
def sample_call : TklCall :=
  ⟨1, 9, ["irc.example.org".toList, "+".toList, "Z".toList, "*".toList, "1.2.3.4".toList,
          "admin".toList, "0".toList, "100".toList, "spam".toList]⟩

/-- A global Z-line set by `admin` on `*@1.2.3.4`, never expiring, stored at
address 1 (its type is `TKL_ZAP | TKL_GLOBAL`). -/
def sample_zline : aTKline where
  addr := 1
  type := 6
  usermask := "*".toList
  hostmask := "1.2.3.4".toList
  reason := "spam".toList
  setby := "admin".toList
  expire_at := 0
  set_at := 100
  tkl_duration := 0
  tkl_reason := []

/-- A global Z-line like `sample_zline` whose reason is the empty string. -/
def sample_noreason : aTKline := { sample_zline with reason := [] }

/-- An in-memory set whose only record is `r`, in bucket `b`. -/
def single_tkl (b : Nat) (r : aTKline) : Nat → List aTKline :=
  fun i => if i = b then [r] else []

/-- A channel `#c` with one ordinary ban. -/
def chan_c : aChannel := ⟨"#c".toList, [⟨"*!*@bad.example".toList⟩]⟩

/-- A channel `#b` whose only ban delegates to `#c`. -/
def chan_b : aChannel := ⟨"#b".toList, [⟨"~S:#c".toList⟩]⟩

/-- A channel `#a` whose only ban delegates to `#b`. -/
def chan_a : aChannel := ⟨"#a".toList, [⟨"~S:#b".toList⟩]⟩

/-- A host with the channels `#a`, `#b`, `#c`, found by their exact names, and
one client, who matches the ordinary ban `*!*@bad.example`. -/
def chain_host : ChanHost Unit where
  get_channel := fun name => [chan_a, chan_b, chan_c].find? (fun c => c.chname = name)
  ban_matches := fun _ _ banstr _ => banstr = "*!*@bad.example".toList

/-- A channel named `#A` whose only ban delegates to `#b`. -/
def cyc_a : aChannel := ⟨"#A".toList, [⟨"~S:#b".toList⟩]⟩

/-- A channel named `#B` whose only ban delegates to `#a`. -/
def cyc_b : aChannel := ⟨"#B".toList, [⟨"~S:#a".toList⟩]⟩

/-- A host with the channels `#A` and `#B`, found by name without regard to
letter case (as IRC channel names are), and one client, who matches no ban. -/
def cycle_host : ChanHost Unit where
  get_channel := fun name =>
    [cyc_a, cyc_b].find? (fun c => c.chname.map Char.toLower = name.map Char.toLower)
  ban_matches := fun _ _ _ _ => false

/-- Every occupied slot of the guard holds `#a` or `#b`. -/
def guard_spelled (g : Guard) : Prop :=
  ∀ e ∈ g, e = none ∨ e = some "#a".toList ∨ e = some "#b".toList

/-- A database file like `sample_db` whose header announces format version 2. -/
def sample_db_v2 : List Char :=
  "# TKL Database v2 1400000000\nZ * 1.2.3.4 admin 100 0 spam\n".toList

/-- An I/O outcome in which the file opens and the header is accepted, but the
first record cannot be written (the disk is full) and nothing has reached the
file. -/
def io_disk_full : IoOutcome := ⟨true, fun k => decide (k = 0), true, true, 0⟩

/-- An I/O outcome in which every `fprintf` is accepted by the stream and the
flush done by `fclose` fails. -/
def io_close_fails : IoOutcome := ⟨true, fun _ => true, false, true, 0⟩

/-- A database path of 511 characters. -/
def long_path : CStr := List.replicate 504 'd' ++ "/tkl.db".toList

/-- A file system that holds only the database at `long_path`, with the content
of `sample_db`. -/
def long_path_fs : FS := fun p => if p = long_path then some sample_db else none

/-- The fields are read in the spamfilter layout: the first field starts with
`F` or `f`. -/
def spamf_layout (toks : List CStr) : Bool :=
  match toks with
  | (c :: _) :: _ => c = 'F' || c = 'f'
  | _ => false

/-- The number of fields the layout of a data line requires: 9 for a
spamfilter, 7 for a regular record. -/
def fields_required (toks : List CStr) : Nat :=
  if spamf_layout toks then 9 else 7

/-- A line that carries no record: a blank line (empty or spaces only), a
comment (it begins with `#`), or a data line with fewer space-separated fields
than its layout requires. -/
def skipped_line (t : CStr) : Prop :=
  (∀ c ∈ t, c = ' ') ∨ t.head? = some '#' ∨
  ∃ toks : List CStr, toks ≠ [] ∧ (∀ f ∈ toks, is_token f = true) ∧
    toks.length < fields_required toks ∧ t = join_sp toks

/-- What `bs_banned` does once the host's ban check of the target channel has
returned: it clears slot `i` of the guard and returns 1 when a ban was found, 0
otherwise. -/
def bs_release (i : Nat) : Res (Option Ban × Guard) → Res (Int × Guard)
  | .ok (banned, g2) => .ok (if banned.isSome then 1 else 0, g2.set i none)
  | .out_of_fuel => .out_of_fuel
  | .undefined => .undefined

/-- The command replayed for the data line `G * 5.6.7.8 oper 200 0 tail`. -/
def tail_call : TklCall :=
  ⟨1, 9, ["irc.example.org".toList, "+".toList, "G".toList, "*".toList, "5.6.7.8".toList,
          "oper".toList, "0".toList, "200".toList, "tail".toList]⟩

/-- A database file whose only line after the header is a comment: `#`, 2046
times `x`, then the text `G * 5.6.7.8 oper 200 0 tail`. -/
def long_comment_db : List Char :=
  "# TKL Database v1 1400000000".toList ++ '\n' ::
    ('#' :: (List.replicate 2046 'x' ++ "G * 5.6.7.8 oper 200 0 tail".toList) ++ ['\n'])

/-- A `~S` ban of 64 characters: the marker, the colon, and a channel name of 61
characters. -/
def long_ban : CStr := "~S:#".toList ++ List.replicate 60 'c'

/-- A channel `#a` whose only ban is `long_ban`. -/
def chan_long : aChannel := ⟨"#a".toList, [⟨long_ban⟩]⟩

/-- The name the `k`-th channel of the nest is spelled with in a ban: `#` and two
lower-case letters. -/
def nest_spelled (k : Nat) : CStr := ['#', Char.ofNat (97 + k / 10), Char.ofNat (97 + k % 10)]

/-- The `~S` ban that delegates to the `k`-th channel of the nest. -/
def nest_ban (k : Nat) : CStr := "~S:".toList ++ nest_spelled k

/-- The `k`-th channel of the nest: its name is `#` and two upper-case letters;
the channels 0 to 32 each carry one ban, which delegates to the next channel and
spells its name in lower case; channel 33 carries one ordinary ban. -/
def nest_chan (k : Nat) : aChannel :=
  ⟨['#', Char.ofNat (65 + k / 10), Char.ofNat (65 + k % 10)],
   if k < 33 then [⟨nest_ban (k + 1)⟩] else [⟨"*!*@bad.example".toList⟩]⟩

/-- A host with the 34 channels of the nest, found by name without regard to
letter case, and one client, who matches the ordinary ban `*!*@bad.example`. -/
def nest_host : ChanHost Unit where
  get_channel := fun name =>
    ((List.range 34).map nest_chan).find?
      (fun c => c.chname.map Char.toLower = name.map Char.toLower)
  ban_matches := fun _ _ banstr _ => banstr = "*!*@bad.example".toList

/-- The guard while `k` delegations of the nest are active: the spelled names of
the channels 1 to `k` in the first `k` slots of 32, or of 64 once `k` exceeds
32. -/
def nest_guard (k : Nat) : Guard :=
  (List.range k).map (fun i => some (nest_spelled (i + 1)))
    ++ List.replicate ((if k ≤ 32 then 32 else 64) - k) none

/-! ## Theorems: `bs_param` -/

theorem strchr_found_iff (s : CStr) (c : Char) : strchr_found s c = true ↔ c ∈ s := by
  induction s with
  | nil => simp [strchr_found]
  | cons d s ih =>
    simp only [strchr_found, Bool.or_eq_true, decide_eq_true_eq, ih, List.mem_cons]
    constructor
    · rintro (h | h)
      · exact Or.inl h.symm
      · exact Or.inr h
    · rintro (h | h)
      · exact Or.inl h.symm
      · exact Or.inr h

theorem any_suffix_of_nil (f : CStr → Bool) (hf : f [] = true) (t : CStr) :
    any_suffix f t = true := by
  induction t with
  | nil => simp [any_suffix, hf]
  | cons c t ih => simp [any_suffix, ih]

/-- The mask of `bs_param` matches exactly the texts `~`, one character, `:`, `#`,
anything. -/
theorem glob_match_bs_mask (p : CStr) :
    glob_match "~?:#*".toList p = true ↔ ∃ c rest, p = '~' :: c :: ':' :: '#' :: rest := by
  show glob_match ['~', '?', ':', '#', '*'] p = true ↔ _
  match p with
  | [] => simp [glob_match]
  | [a] => simp [glob_match]
  | [a, b] => simp [glob_match]
  | [a, b, c] => simp [glob_match]
  | a :: b :: c :: d :: rest =>
    have hs : any_suffix (fun x : CStr => List.isEmpty x) rest = true :=
      any_suffix_of_nil _ rfl rest
    simp only [glob_match]
    simp [hs]
    constructor
    · rintro ⟨h1, h2, h3⟩
      subst h1 h2 h3
      exact ⟨rfl, rfl, rfl⟩
    · rintro ⟨h1, h2, h3⟩
      subst h1 h2 h3
      exact ⟨rfl, rfl, rfl⟩

/-- C4: `bs_param` rejects (returns NULL for) every parameter that contains a
comma and every parameter of the shape marker, colon, another marker
(`~x:~y...`), where `match` returns 0 exactly on a glob match. -/
theorem bs_param_rejects (param : CStr)
    (hshape : ',' ∈ param ∨ ∃ m1 m2 rest, param = '~' :: m1 :: ':' :: '~' :: m2 :: rest) :
    bs_param param = none := by
  unfold bs_param
  rw [if_pos]
  rcases hshape with h | ⟨m1, m2, rest, rfl⟩
  · exact Or.inr ((strchr_found_iff param ',').2 h)
  · left
    have hno : glob_match "~?:#*".toList ('~' :: m1 :: ':' :: '~' :: m2 :: rest) = false := by
      rw [Bool.eq_false_iff, Ne, glob_match_bs_mask]
      rintro ⟨c, r, h⟩
      simp at h
    rw [irc_match, hno]
    decide

theorem bs_param_rejects_witness :
    bs_param "~S:~S:#chan".toList = none ∧ bs_param "~S:#a,#b".toList = none :=
  ⟨bs_param_rejects "~S:~S:#chan".toList (Or.inr ⟨'S', 'S', ":#chan".toList, rfl⟩),
   bs_param_rejects "~S:#a,#b".toList (Or.inl (by decide))⟩

/-! ## Theorems: the one-shot gate of `load_tkls` -/

theorem load_line_has_booted (h : Host) (now : Int) (st : Tkldb) (buf : CStr) :
    (load_line h now st buf).has_booted = st.has_booted := by
  unfold load_line
  split <;> simp [m_tkl]

theorem load_loop_has_booted (h : Host) (now : Int) (n : Nat) :
    ∀ (fd : List Char) (st : Tkldb), (load_loop h now n fd st).has_booted = st.has_booted := by
  induction n with
  | zero => intro fd st; rfl
  | succ n ih =>
    intro fd st
    unfold load_loop
    split
    · rfl
    · rw [ih, load_line_has_booted]

/-- C10, as stated, fails: during boot (`has_booted` is 0) the first call of
`load_tkls` replays the database, and so does a second call, made directly or
through another `MOD_INIT`, `MOD_LOAD` cycle of the still booting host. -/
theorem load_tkls_twice_replays_twice :
    (load_tkls sample_host 1400000001 (sample_fs sample_db) boot_state).log = [sample_call] ∧
    (load_tkls sample_host 1400000001 (sample_fs sample_db)
      (load_tkls sample_host 1400000001 (sample_fs sample_db) boot_state)).log
      = [sample_call, sample_call] ∧
    (tkldb_MOD_LOAD sample_host 1400000001 (sample_fs sample_db)
      (tkldb_MOD_INIT 0
        (tkldb_MOD_LOAD sample_host 1400000001 (sample_fs sample_db) boot_state))).log
      = [sample_call, sample_call] := by
  refine ⟨?_, ?_, ?_⟩ <;> decide

/-- C10, amended: `load_tkls` submits nothing whenever `has_booted` is set, whatever
the file holds; `MOD_INIT` copies the host's `ircd_booted` into `has_booted`, so a
`MOD_INIT`, `MOD_LOAD` cycle run after the host has booted replays nothing; and
`load_tkls` itself never changes `has_booted`. -/
theorem load_tkls_only_before_boot (h : Host) (now : Int) (fs : FS) (st : Tkldb) :
    (st.has_booted ≠ 0 → load_tkls h now fs st = st) ∧
    (∀ ircd_booted : Int, ircd_booted ≠ 0 →
      (tkldb_MOD_LOAD h now fs (tkldb_MOD_INIT ircd_booted st)).log = st.log) ∧
    (load_tkls h now fs st).has_booted = st.has_booted := by
  refine ⟨?_, ?_, ?_⟩
  · intro hb
    simp [load_tkls, hb]
  · intro b hb
    simp [tkldb_MOD_LOAD, load_tkls, tkldb_MOD_INIT, hb]
  · unfold load_tkls
    split
    · rfl
    · split
      · rfl
      · simp only []
        split
        · rfl
        · rw [load_loop_has_booted]

theorem load_tkls_only_before_boot_witness :
    (load_tkls sample_host 5 (sample_fs sample_db) (tkldb_MOD_INIT 1 boot_state)
        = tkldb_MOD_INIT 1 boot_state) ∧
    (tkldb_MOD_LOAD sample_host 5 (sample_fs sample_db) (tkldb_MOD_INIT 1 boot_state)).log
        = boot_state.log :=
  ⟨(load_tkls_only_before_boot sample_host 5 (sample_fs sample_db)
      (tkldb_MOD_INIT 1 boot_state)).1 (by decide),
   (load_tkls_only_before_boot sample_host 5 (sample_fs sample_db) boot_state).2.1 1
      (by decide)⟩

/-! ## Theorems: tokenizing a data line -/

theorem skip_seps_nil_fs (s : CStr) : skip_seps [] s = s := by
  cases s <;> simp [skip_seps]

theorem span_token_nil_fs (s : CStr) : span_token [] s = (s, []) := by
  induction s with
  | nil => rfl
  | cons c s ih => simp [span_token, ih]

theorem is_token_ne_nil {t : CStr} (ht : is_token t = true) : t ≠ [] := by
  intro h
  subst h
  simp [is_token] at ht

theorem is_token_mem {t : CStr} (ht : is_token t = true) :
    ∀ c ∈ t, c ≠ ' ' ∧ c ≠ '\n' ∧ c ≠ '\r' := by
  intro c hc
  simp only [is_token, Bool.and_eq_true, List.all_eq_true] at ht
  have := ht.2 c hc
  simpa [and_assoc] using this

theorem is_text_ne_nil {t : CStr} (ht : is_text t = true) : t ≠ [] := by
  intro h
  subst h
  simp [is_text] at ht

theorem is_text_mem {t : CStr} (ht : is_text t = true) :
    ∀ c ∈ t, c ≠ '\n' ∧ c ≠ '\r' := by
  intro c hc
  simp only [is_text, Bool.and_eq_true, List.all_eq_true] at ht
  have := ht.2 c hc
  simpa using this

theorem skip_seps_token {t : CStr} (ht : is_token t = true) (rest : CStr) :
    skip_seps [' '] (t ++ rest) = t ++ rest := by
  cases t with
  | nil => exact absurd rfl (is_token_ne_nil ht)
  | cons c t =>
    have hc := (is_token_mem ht c (List.mem_cons_self c t)).1
    simp [skip_seps, hc]

theorem span_token_space (t rest : CStr) (ht : ∀ c ∈ t, c ≠ ' ') :
    span_token [' '] (t ++ ' ' :: rest) = (t, ' ' :: rest) := by
  induction t with
  | nil => simp [span_token]
  | cons c t ih =>
    have hc : c ≠ ' ' := ht c (List.mem_cons_self c t)
    have := ih (fun d hd => ht d (List.mem_cons_of_mem c hd))
    simp [span_token, hc, this]

theorem span_token_end (t : CStr) (ht : ∀ c ∈ t, c ≠ ' ') :
    span_token [' '] t = (t, []) := by
  induction t with
  | nil => simp [span_token]
  | cons c t ih =>
    have hc : c ≠ ' ' := ht c (List.mem_cons_self c t)
    have := ih (fun d hd => ht d (List.mem_cons_of_mem c hd))
    simp [span_token, hc, this]

theorem strtoken_space {t : CStr} (ht : is_token t = true) (save : Option CStr) (rest : CStr) :
    strtoken save (some (t ++ ' ' :: rest)) [' '] = (some t, some rest) := by
  have h1 := skip_seps_token ht (' ' :: rest)
  have h2 := span_token_space t rest (fun c hc => (is_token_mem ht c hc).1)
  cases t with
  | nil => exact absurd rfl (is_token_ne_nil ht)
  | cons c t =>
    simp only [strtoken]
    rw [h1]
    simp only [List.cons_append] at h2 ⊢
    rw [h2]

theorem next_token_space {t : CStr} (ht : is_token t = true) (rest : CStr) :
    next_token (some (t ++ ' ' :: rest)) [' '] = some (t, some rest) := by
  have h1 := skip_seps_token ht (' ' :: rest)
  have h2 := span_token_space t rest (fun c hc => (is_token_mem ht c hc).1)
  cases t with
  | nil => exact absurd rfl (is_token_ne_nil ht)
  | cons c t =>
    simp only [next_token, strtoken]
    rw [h1]
    simp only [List.cons_append] at h2 ⊢
    rw [h2]

theorem next_token_rest {s : CStr} (hs : s ≠ []) :
    next_token (some s) [] = some (s, none) := by
  cases s with
  | nil => exact absurd rfl hs
  | cons c t =>
    simp only [next_token, strtoken, skip_seps_nil_fs, span_token_nil_fs]

theorem stripcrlf_append (body eol : CStr) (hb : ∀ c ∈ body, c ≠ '\n' ∧ c ≠ '\r')
    (he : is_eol eol = true) : stripcrlf (body ++ eol) = body := by
  induction body with
  | nil =>
    cases eol with
    | nil => rfl
    | cons c e =>
      simp only [is_eol, Bool.or_eq_true, decide_eq_true_eq] at he
      simp [stripcrlf, he]
  | cons c b ih =>
    have hc := hb c (List.mem_cons_self c b)
    have := ih (fun d hd => hb d (List.mem_cons_of_mem c hd))
    simp [stripcrlf, hc.1, hc.2, this]

theorem no_crlf_token {t : CStr} (ht : is_token t = true) : no_crlf t :=
  fun c hc => (is_token_mem ht c hc).2

theorem no_crlf_text {t : CStr} (ht : is_text t = true) : no_crlf t :=
  fun c hc => is_text_mem ht c hc

theorem no_crlf_join {f rest : CStr} (hf : no_crlf f) (hr : no_crlf rest) :
    no_crlf (f ++ ' ' :: rest) := by
  intro c hc
  rcases List.mem_append.1 hc with h | h
  · exact hf c h
  · rcases List.mem_cons.1 h with h | h
    · subst h
      exact ⟨by decide, by decide⟩
    · exact hr c h

theorem head?_append_token {t : CStr} (ht : is_token t = true) (rest : CStr) :
    (t ++ rest).head? = t.head? := by
  cases t with
  | nil => exact absurd rfl (is_token_ne_nil ht)
  | cons c t => rfl

/-- What the loop body makes of a regular data line. -/
theorem parse_line_regular (h : Host) (now : Int)
    (type usermask hostmask set_by set_at expire_at reason eol : CStr)
    (h0 : is_token type = true) (hc : type.head? ≠ some '#')
    (hF : type.head? ≠ some 'F') (hf : type.head? ≠ some 'f')
    (h1 : is_token usermask = true) (h2 : is_token hostmask = true)
    (h3 : is_token set_by = true) (h4 : is_token set_at = true)
    (h5 : is_token expire_at = true) (h6 : is_text reason = true)
    (he : is_eol eol = true) :
    parse_line h now
        (join_sp [type, usermask, hostmask, set_by, set_at, expire_at, reason] ++ eol)
      = if 0 < atol expire_at ∧ atol expire_at < now then none
        else some (9, [h.me_name, ['+'], type, usermask, hostmask, set_by, expire_at, set_at,
                       reason]) := by
  have hbody : no_crlf (join_sp [type, usermask, hostmask, set_by, set_at, expire_at, reason]) :=
    no_crlf_join (no_crlf_token h0) (no_crlf_join (no_crlf_token h1)
      (no_crlf_join (no_crlf_token h2) (no_crlf_join (no_crlf_token h3)
        (no_crlf_join (no_crlf_token h4) (no_crlf_join (no_crlf_token h5) (no_crlf_text h6))))))
  unfold parse_line
  simp only [stripcrlf_append _ _ hbody he]
  simp only [join_sp, head?_append_token h0, hc, if_false, strtoken_space h0,
    next_token_space h1, next_token_space h2, next_token_space h3, next_token_space h4,
    next_token_space h5, next_token_rest (is_text_ne_nil h6)]
  simp [hF, hf, next_token_space h1, next_token_space h2, next_token_space h3,
    next_token_space h4, next_token_space h5, next_token_rest (is_text_ne_nil h6)]

/-- What the loop body makes of a spamfilter data line. -/
theorem parse_line_spamfilter (h : Host) (now : Int)
    (type target action set_by set_at expire_at tkl_duration tkl_reason regex eol : CStr)
    (h0 : is_token type = true) (hF : type.head? = some 'F' ∨ type.head? = some 'f')
    (h1 : is_token target = true) (h2 : is_token action = true)
    (h3 : is_token set_by = true) (h4 : is_token set_at = true)
    (h5 : is_token expire_at = true) (h6 : is_token tkl_duration = true)
    (h7 : is_token tkl_reason = true) (h8 : is_text regex = true)
    (he : is_eol eol = true) :
    parse_line h now
        (join_sp [type, target, action, set_by, set_at, expire_at, tkl_duration, tkl_reason,
                  regex] ++ eol)
      = if 0 < atol expire_at ∧ atol expire_at < now then none
        else some (11, [h.me_name, ['+'], type, target, action, set_by, expire_at, set_at,
                        tkl_duration, tkl_reason, regex]) := by
  have hbody : no_crlf (join_sp [type, target, action, set_by, set_at, expire_at,
      tkl_duration, tkl_reason, regex]) :=
    no_crlf_join (no_crlf_token h0) (no_crlf_join (no_crlf_token h1)
      (no_crlf_join (no_crlf_token h2) (no_crlf_join (no_crlf_token h3)
        (no_crlf_join (no_crlf_token h4) (no_crlf_join (no_crlf_token h5)
          (no_crlf_join (no_crlf_token h6) (no_crlf_join (no_crlf_token h7)
            (no_crlf_text h8))))))))
  have hc : type.head? ≠ some '#' := by
    rcases hF with h | h <;> rw [h] <;> decide
  have hFf : ¬ (type.head? ≠ some 'F' ∧ type.head? ≠ some 'f') := by
    rcases hF with h | h <;> rw [h] <;> decide
  unfold parse_line
  simp only [stripcrlf_append _ _ hbody he]
  simp only [join_sp, head?_append_token h0, hc, if_false, strtoken_space h0,
    next_token_space h1, next_token_space h2, next_token_space h3, next_token_space h4,
    next_token_space h5, next_token_space h6, next_token_space h7,
    next_token_rest (is_text_ne_nil h8)]
  simp [hFf, next_token_space h1, next_token_space h2, next_token_space h3,
    next_token_space h4, next_token_space h5, next_token_space h6, next_token_space h7,
    next_token_rest (is_text_ne_nil h8)]

/-! ## Theorems: reading the file -/

theorem cstr_of_no_nul (l : List Char) (hl : NUL ∉ l) : cstr l = l := by
  induction l with
  | nil => rfl
  | cons c l ih =>
    have hc : c ≠ NUL := fun h => hl (h ▸ List.mem_cons_self c l)
    have := ih (fun h => hl (List.mem_cons_of_mem c h))
    simp [cstr, hc, this]

theorem fgets_read_length (n : Nat) :
    ∀ fd : List Char, (fgets_read n fd).2.length ≤ fd.length := by
  induction n with
  | zero => intro fd; simp [fgets_read]
  | succ n ih =>
    intro fd
    cases fd with
    | nil => simp [fgets_read]
    | cons c fd =>
      simp only [fgets_read]
      split
      · simp
      · have := ih fd
        simp only [List.length_cons]
        omega

theorem fgets_rest_lt {fd buf rest : List Char} (hg : fgets 2048 fd = some (buf, rest)) :
    rest.length < fd.length := by
  cases fd with
  | nil => simp [fgets] at hg
  | cons c fd =>
    simp only [fgets, Option.some.injEq] at hg
    have h2 : rest = (fgets_read 2047 (c :: fd)).2 := by rw [hg]
    rw [h2]
    simp only [fgets_read]
    split
    · simp
    · have := fgets_read_length 2046 fd
      simp only [List.length_cons]
      omega

/-- The fuel of `load_loop` is never exhausted once it covers the stream length. -/
theorem load_loop_fuel (h : Host) (now : Int) (n : Nat) :
    ∀ (m : Nat) (fd : List Char) (st : Tkldb), fd.length ≤ n → fd.length ≤ m →
      load_loop h now n fd st = load_loop h now m fd st := by
  induction n with
  | zero =>
    intro m fd st hn _
    have hfd : fd = [] := List.length_eq_zero.1 (Nat.le_zero.1 hn)
    subst hfd
    cases m <;> simp [load_loop, fgets]
  | succ n ih =>
    intro m fd st hn hm
    cases m with
    | zero =>
      have hfd : fd = [] := List.length_eq_zero.1 (Nat.le_zero.1 hm)
      subst hfd
      simp [load_loop, fgets]
    | succ m =>
      simp only [load_loop]
      cases hg : fgets 2048 fd with
      | none => rfl
      | some r =>
        obtain ⟨buf, rest⟩ := r
        have hlt := fgets_rest_lt hg
        exact ih m rest _ (by omega) (by omega)

theorem fgets_read_line (line rest : List Char) (hl : '\n' ∉ line) :
    ∀ n : Nat, line.length < n →
      fgets_read n (line ++ '\n' :: rest) = (line ++ ['\n'], rest) := by
  induction line with
  | nil =>
    intro n hn
    cases n with
    | zero => omega
    | succ n => simp [fgets_read]
  | cons c line ih =>
    intro n hn
    cases n with
    | zero => omega
    | succ n =>
      have hc : c ≠ '\n' := fun h => hl (h ▸ List.mem_cons_self c line)
      have := ih (fun h => hl (List.mem_cons_of_mem c h)) n
        (by simp only [List.length_cons] at hn; omega)
      simp [fgets_read, hc, this]

theorem fgets_line (line rest : List Char) (hl : '\n' ∉ line) (hlen : line.length ≤ 2046) :
    fgets 2048 (line ++ '\n' :: rest) = some (line ++ ['\n'], rest) := by
  have := fgets_read_line line rest hl 2047 (by omega)
  cases line with
  | nil => simpa [fgets] using this
  | cons c line => simpa [fgets] using this

/-- One turn of the loop on a stream that starts with a complete line. -/
theorem load_loop_line (h : Host) (now : Int) (line rest : List Char) (st : Tkldb)
    (hl : '\n' ∉ line) (hlen : line.length ≤ 2046) :
    load_loop h now (line ++ '\n' :: rest).length (line ++ '\n' :: rest) st
      = load_loop h now rest.length rest (load_line h now st (cstr (line ++ ['\n']))) := by
  have hlen2 : (line ++ '\n' :: rest).length = (line.length + rest.length) + 1 := by
    simp only [List.length_append, List.length_cons]
    omega
  rw [hlen2]
  simp only [load_loop, fgets_line line rest hl hlen]
  exact load_loop_fuel h now _ _ _ _ (by omega) (le_refl _)

theorem signature_eq :
    signature = ['#', ' ', 'T', 'K', 'L', ' ', 'D', 'a', 't', 'a', 'b', 'a', 's', 'e'] := by
  decide

theorem strncmp_signature (tail : List Char) :
    strncmp_eq 14 (cstr (signature ++ tail)) signature = true := by
  rw [signature_eq]
  simp [cstr, NUL, strncmp_eq]

/-- With `has_booted` clear and a valid first line, `load_tkls` is the loop over
the rest of the file. -/
theorem load_tkls_header (h : Host) (now : Int) (fs : FS) (st : Tkldb)
    (hdr body : List Char) (hb : st.has_booted = 0) (hv : valid_header hdr)
    (hfile : fs st.file = some (hdr ++ '\n' :: body)) :
    load_tkls h now fs st = load_loop h now body.length body st := by
  obtain ⟨⟨tail, htail⟩, hnl, hlen⟩ := hv
  unfold load_tkls
  simp only [hb, ne_eq, not_true_eq_false, if_false, hfile, fgets_line hdr body hnl hlen]
  rw [← htail, List.append_assoc, strncmp_signature]
  simp

theorem complete_lines_tail (c : Char) (s : List Char) (h : complete_lines (c :: s)) :
    complete_lines s := by
  rcases h with h | ⟨p, hp⟩
  · exact absurd h (List.cons_ne_nil c s)
  · cases p with
    | nil =>
      left
      simpa using (List.cons.inj hp).2
    | cons d p =>
      right
      exact ⟨p, (List.cons.inj hp).2⟩

theorem fgets_read_complete (n : Nat) :
    ∀ s : List Char, complete_lines s → complete_lines (fgets_read n s).2 := by
  induction n with
  | zero => intro s hs; simpa [fgets_read] using hs
  | succ n ih =>
    intro s hs
    cases s with
    | nil => simpa [fgets_read] using hs
    | cons c s =>
      simp only [fgets_read]
      split
      · exact complete_lines_tail c s hs
      · exact ih s (complete_lines_tail c s hs)

theorem fgets_read_append (n : Nat) :
    ∀ (p post : List Char),
      fgets_read n ((p ++ ['\n']) ++ post)
        = ((fgets_read n (p ++ ['\n'])).1, (fgets_read n (p ++ ['\n'])).2 ++ post) := by
  induction n with
  | zero => intro p post; simp [fgets_read]
  | succ n ih =>
    intro p post
    cases p with
    | nil => simp [fgets_read]
    | cons c p =>
      have := ih p post
      by_cases hc : c = '\n'
      · simp [fgets_read, hc]
      · have e1 : ∀ s : List Char, fgets_read (n + 1) (c :: s)
            = (c :: (fgets_read n s).1, (fgets_read n s).2) := by
          intro s
          simp [fgets_read, hc]
        simp only [List.cons_append]
        rw [e1, e1, this]

/-- The loop over a stream that starts with complete lines is the loop over those
lines followed by the loop over the rest. -/
theorem load_loop_append (h : Host) (now : Int) (k : Nat) :
    ∀ (pre : List Char), pre.length ≤ k → complete_lines pre →
      ∀ (post : List Char) (st : Tkldb),
        load_loop h now (pre ++ post).length (pre ++ post) st
          = load_loop h now post.length post (load_loop h now pre.length pre st) := by
  induction k with
  | zero =>
    intro pre hk _ post st
    have hp : pre = [] := List.length_eq_zero.1 (Nat.le_zero.1 hk)
    subst hp
    simp [load_loop]
  | succ k ih =>
    intro pre hk hc post st
    rcases hc with hp | ⟨p, hp⟩
    · subst hp
      simp [load_loop]
    · subst hp
      have hne : ∃ c s, p ++ ['\n'] = c :: s := by
        cases p with
        | nil => exact ⟨_, _, rfl⟩
        | cons c p => exact ⟨c, p ++ ['\n'], rfl⟩
      obtain ⟨c, s, hcs⟩ := hne
      have hg1 : fgets 2048 (p ++ ['\n']) = some (fgets_read 2047 (p ++ ['\n'])) := by
        rw [hcs]
        rfl
      have hg2 : fgets 2048 ((p ++ ['\n']) ++ post)
          = some ((fgets_read 2047 (p ++ ['\n'])).1,
              (fgets_read 2047 (p ++ ['\n'])).2 ++ post) := by
        rw [← fgets_read_append 2047 p post, hcs]
        rfl
      have hlt := fgets_rest_lt hg1
      have hrest := fgets_read_complete 2047 (p ++ ['\n']) (Or.inr ⟨p, rfl⟩)
      have hl1 : ((p ++ ['\n']) ++ post).length = ((p ++ ['\n']) ++ post).length - 1 + 1 := by
        simp only [List.length_append, List.length_singleton]
        omega
      have hl2 : (p ++ ['\n']).length = (p ++ ['\n']).length - 1 + 1 := by
        simp only [List.length_append, List.length_singleton]
        omega
      rw [hl1, hl2]
      simp only [load_loop, hg1, hg2]
      rw [load_loop_fuel h now _ ((fgets_read 2047 (p ++ ['\n'])).2 ++ post).length
            ((fgets_read 2047 (p ++ ['\n'])).2 ++ post) _
            (by simp only [List.length_append, List.length_singleton] at hlt ⊢; omega)
            (le_refl _),
        load_loop_fuel h now ((p ++ ['\n']).length - 1) (fgets_read 2047 (p ++ ['\n'])).2.length
            (fgets_read 2047 (p ++ ['\n'])).2 _ (by omega) (le_refl _)]
      exact ih _ (by omega) hrest post _

/-- Loading a file with a valid header up to and including one of its lines: it is
the load of the lines before it, then the loop body on that line, then the loop
over the lines after it. -/
theorem load_tkls_at_line (h : Host) (now : Int) (fs fs1 : FS) (st : Tkldb)
    (hdr pre line post : List Char) (hb : st.has_booted = 0) (hv : valid_header hdr)
    (hpre : complete_lines pre) (hl : '\n' ∉ line) (hlen : line.length ≤ 2046)
    (hfile : fs st.file = some (hdr ++ '\n' :: (pre ++ (line ++ '\n' :: post))))
    (hfile1 : fs1 st.file = some (hdr ++ '\n' :: pre)) :
    load_tkls h now fs st
      = load_loop h now post.length post
          (load_line h now (load_tkls h now fs1 st) (cstr (line ++ ['\n']))) := by
  rw [load_tkls_header h now fs st hdr _ hb hv hfile,
    load_tkls_header h now fs1 st hdr _ hb hv hfile1,
    load_loop_append h now pre.length pre (le_refl _) hpre,
    load_loop_line h now line post _ hl hlen]

/-! ## Theorems: what `load_tkls` replays for a data line -/

theorem load_line_of_parse_some (h : Host) (now : Int) (st : Tkldb) (buf : CStr)
    (parc : Nat) (parv : List CStr) (hp : parse_line h now buf = some (parc, parv)) :
    load_line h now st buf = submitted st parc parv := by
  simp [load_line, hp, submitted, m_tkl]

theorem load_line_of_parse_none (h : Host) (now : Int) (st : Tkldb) (buf : CStr)
    (hp : parse_line h now buf = none) : load_line h now st buf = st := by
  simp [load_line, hp]

/-- The loop body on a well-formed regular line: skipped when expired, otherwise
one command in the regular layout. -/
theorem load_line_regular (h : Host) (now : Int) (st : Tkldb)
    (type usermask hostmask set_by set_at expire_at reason eol : CStr)
    (hok : regular_fields_ok type usermask hostmask set_by set_at expire_at reason = true)
    (he : is_eol eol = true) :
    load_line h now st
        (join_sp [type, usermask, hostmask, set_by, set_at, expire_at, reason] ++ eol)
      = if 0 < atol expire_at ∧ atol expire_at < now then st
        else submitted st 9 [h.me_name, ['+'], type, usermask, hostmask, set_by, expire_at,
                              set_at, reason] := by
  simp only [regular_fields_ok, Bool.and_eq_true, bne_iff_ne, ne_eq] at hok
  obtain ⟨⟨⟨⟨⟨⟨⟨⟨⟨h0, hc⟩, hF⟩, hf⟩, h1⟩, h2⟩, h3⟩, h4⟩, h5⟩, h6⟩ := hok
  have hp := parse_line_regular h now type usermask hostmask set_by set_at expire_at reason eol
    h0 hc hF hf h1 h2 h3 h4 h5 h6 he
  by_cases hexp : 0 < atol expire_at ∧ atol expire_at < now
  · rw [if_pos hexp] at hp ⊢
    exact load_line_of_parse_none h now st _ hp
  · rw [if_neg hexp] at hp ⊢
    exact load_line_of_parse_some h now st _ _ _ hp

/-- The loop body on a well-formed spamfilter line: skipped when expired,
otherwise one command in the spamfilter layout. -/
theorem load_line_spamfilter (h : Host) (now : Int) (st : Tkldb)
    (type target action set_by set_at expire_at tkl_duration tkl_reason regex eol : CStr)
    (hok : spamf_fields_ok type target action set_by set_at expire_at tkl_duration tkl_reason
      regex = true)
    (he : is_eol eol = true) :
    load_line h now st
        (join_sp [type, target, action, set_by, set_at, expire_at, tkl_duration, tkl_reason,
                  regex] ++ eol)
      = if 0 < atol expire_at ∧ atol expire_at < now then st
        else submitted st 11 [h.me_name, ['+'], type, target, action, set_by, expire_at,
                               set_at, tkl_duration, tkl_reason, regex] := by
  simp only [spamf_fields_ok, Bool.and_eq_true, Bool.or_eq_true, beq_iff_eq] at hok
  obtain ⟨⟨⟨⟨⟨⟨⟨⟨⟨h0, hF⟩, h1⟩, h2⟩, h3⟩, h4⟩, h5⟩, h6⟩, h7⟩, h8⟩ := hok
  have hp := parse_line_spamfilter h now type target action set_by set_at expire_at
    tkl_duration tkl_reason regex eol h0 hF h1 h2 h3 h4 h5 h6 h7 h8 he
  by_cases hexp : 0 < atol expire_at ∧ atol expire_at < now
  · rw [if_pos hexp] at hp ⊢
    exact load_line_of_parse_none h now st _ hp
  · rw [if_neg hexp] at hp ⊢
    exact load_line_of_parse_some h now st _ _ _ hp

theorem load_loop_nil (h : Host) (now : Int) (n : Nat) (st : Tkldb) :
    load_loop h now n [] st = st := by
  cases n <;> simp [load_loop, fgets]

/-! ## Theorems: a line within a file -/

theorem stripcrlf_idem (b : CStr) : stripcrlf (stripcrlf b) = stripcrlf b := by
  induction b with
  | nil => rfl
  | cons c b ih =>
    by_cases hc : c = '\n' ∨ c = '\r'
    · simp [stripcrlf, hc]
    · simp [stripcrlf, hc, ih]

/-- The loop body reads a buffer only up to its first CR or LF. -/
theorem parse_line_stripcrlf (h : Host) (now : Int) (b : CStr) :
    parse_line h now b = parse_line h now (stripcrlf b) := by
  unfold parse_line
  simp only [stripcrlf_idem]

theorem stripcrlf_cstr_newline (line : List Char) :
    stripcrlf (cstr (line ++ ['\n'])) = stripcrlf (cstr line) := by
  induction line with
  | nil => decide
  | cons c line ih =>
    by_cases hc : c = NUL
    · simp [cstr, hc]
    · have e1 : cstr (c :: (line ++ ['\n'])) = c :: cstr (line ++ ['\n']) := by
        simp [cstr, hc]
      have e2 : cstr (c :: line) = c :: cstr line := by simp [cstr, hc]
      rw [List.cons_append, e1, e2]
      simp only [stripcrlf, ih]

/-- A line the loop body skips in every state can be taken out of the file. -/
theorem load_tkls_line_skipped (h : Host) (now : Int) (fs fs1 : FS) (st : Tkldb)
    (hdr pre line post : List Char) (hb : st.has_booted = 0) (hv : valid_header hdr)
    (hpre : complete_lines pre) (hl : '\n' ∉ line) (hlen : line.length ≤ 2046)
    (hskip : ∀ st1 : Tkldb, load_line h now st1 (cstr (line ++ ['\n'])) = st1)
    (hfile : fs st.file = some (hdr ++ '\n' :: (pre ++ (line ++ '\n' :: post))))
    (hfile1 : fs1 st.file = some (hdr ++ '\n' :: (pre ++ post))) :
    load_tkls h now fs st = load_tkls h now fs1 st := by
  rw [load_tkls_header h now fs st hdr _ hb hv hfile,
    load_tkls_header h now fs1 st hdr _ hb hv hfile1,
    load_loop_append h now pre.length pre (le_refl _) hpre,
    load_loop_append h now pre.length pre (le_refl _) hpre,
    load_loop_line h now line post _ hl hlen, hskip]

theorem save_record_ok (h : Host) (ex : Option Nat) (fd : OutFile) (r : aTKline) :
    save_record h io_ok ex fd r
      = .ok (if is_skipped h ex r then fd else ⟨fd.out ++ tkl_line h r, fd.nprintf + 1⟩) := by
  unfold save_record is_skipped tkl_line fprintf io_ok
  by_cases h1 : some r.addr = ex
  · simp [h1]
  · by_cases h2 : r.type = h.TKL_SPAMF
    · simp [h1, h2]
    · by_cases h3 : r.type = h.TKL_NICK
      · simp [h1, h3]
      · by_cases h4 : r.type &&& h.TKL_SPAMF = 0 <;> simp [h1, h2, h3, h4]

theorem save_bucket_ok (h : Host) (ex : Option Nat) (rs : List aTKline) :
    ∀ fd : OutFile, save_bucket h io_ok ex fd rs
      = .ok ⟨fd.out ++ (rs.filter (fun r => !is_skipped h ex r)).flatMap (tkl_line h),
             fd.nprintf + (rs.filter (fun r => !is_skipped h ex r)).length⟩ := by
  induction rs with
  | nil => intro fd; simp [save_bucket]
  | cons r rs ih =>
    intro fd
    simp only [save_bucket, save_record_ok]
    by_cases hs : is_skipped h ex r = true
    · simp [hs, ih]
    · simp [hs, ih, List.append_assoc, Nat.add_assoc, Nat.add_comm 1]

theorem save_buckets_ok (h : Host) (tklines : Nat → List aTKline) (ex : Option Nat)
    (cs : List Char) :
    ∀ fd : OutFile, save_buckets h io_ok tklines ex fd cs
      = .ok ⟨fd.out ++ ((cs.flatMap (fun c => tklines (tkl_hash c))).filter
                (fun r => !is_skipped h ex r)).flatMap (tkl_line h),
             fd.nprintf + ((cs.flatMap (fun c => tklines (tkl_hash c))).filter
                (fun r => !is_skipped h ex r)).length⟩ := by
  induction cs with
  | nil => intro fd; simp [save_buckets]
  | cons c cs ih =>
    intro fd
    simp only [save_buckets, save_bucket_ok, ih]
    simp [List.append_assoc, Nat.add_assoc]

theorem bucket_letters_flatMap (tklines : Nat → List aTKline) :
    bucket_letters.flatMap (fun c => tklines (tkl_hash c)) = all_tkls tklines := by
  have hmap : bucket_letters.map tkl_hash = List.range 26 := by decide
  unfold all_tkls
  rw [← hmap, List.flatMap_map]

/-- When no I/O call fails, the stream holds the header and then the lines of
the records that are not skipped, in bucket order. -/
theorem save_stream_ok (h : Host) (now : Int) (tklines : Nat → List aTKline)
    (ex : Option Nat) :
    save_stream h now io_ok tklines ex
      = .ok ⟨header_line now ++ (saved_tkls h tklines ex).flatMap (tkl_line h),
             (saved_tkls h tklines ex).length + 1⟩ := by
  unfold save_stream
  have hf : fprintf io_ok ⟨[], 0⟩ (header_line now) = .ok ⟨header_line now, 1⟩ := by
    simp [fprintf, io_ok]
  rw [hf]
  simp only [save_buckets_ok, bucket_letters_flatMap, saved_tkls, Nat.add_comm 1]

/-- When no I/O call fails, `save_tkls` returns and the live file holds exactly
what was printed. -/
theorem save_tkls_ok (h : Host) (now : Int) (tklines : Nat → List aTKline)
    (ex : Option Nat) (st : Tkldb) (fs : FS) :
    ∃ fs1 : FS, save_tkls h now io_ok tklines ex st fs = .ok fs1 ∧
      fs1 st.file
        = some (header_line now ++ (saved_tkls h tklines ex).flatMap (tkl_line h)) := by
  unfold save_tkls
  rw [save_stream_ok]
  refine ⟨fs_rename (fs_write fs (tmpname st.file)
    (header_line now ++ (saved_tkls h tklines ex).flatMap (tkl_line h))) (tmpname st.file)
    st.file, ?_, ?_⟩
  · simp [io_ok]
  · simp [fs_rename, fs_write]

theorem all_tkls_single (b : Nat) (hb : b < 26) (r : aTKline) :
    all_tkls (single_tkl b r) = [r] := by
  have hr : List.range 26 = [0, 1, 2, 3, 4, 5, 6, 7, 8, 9, 10, 11, 12, 13, 14, 15, 16, 17, 18,
      19, 20, 21, 22, 23, 24, 25] := by decide
  unfold all_tkls single_tkl
  rw [hr]
  interval_cases b <;> simp

/-- C6: when the save succeeds, the file written by `save_tkls` consists of the
header and the lines of a list `written` of records of the set, taken in order,
in which the excluded record and every configuration-sourced record (local
spamfilter, local nick-ban) do not occur, and every other record occurs as often
as in the set (once, the nodes of the set being distinct). -/
theorem save_tkls_skips_excluded_and_config (h : Host) (now : Int)
    (tklines : Nat → List aTKline) (ex : Option Nat) (st : Tkldb) (fs : FS) :
    ∃ written : List aTKline,
      (∃ fs1 : FS, save_tkls h now io_ok tklines ex st fs = .ok fs1 ∧
        fs1 st.file = some (header_line now ++ written.flatMap (tkl_line h))) ∧
      written.Sublist (all_tkls tklines) ∧
      ∀ r : aTKline, written.count r =
        if some r.addr = ex ∨ r.type = h.TKL_SPAMF ∨ r.type = h.TKL_NICK then 0
        else (all_tkls tklines).count r := by
  refine ⟨saved_tkls h tklines ex, save_tkls_ok h now tklines ex st fs,
    List.filter_sublist _, ?_⟩
  intro r
  have hsk : is_skipped h ex r = true ↔
      (some r.addr = ex ∨ r.type = h.TKL_SPAMF ∨ r.type = h.TKL_NICK) := by
    simp [is_skipped, or_assoc]
  by_cases hc : some r.addr = ex ∨ r.type = h.TKL_SPAMF ∨ r.type = h.TKL_NICK
  · rw [if_pos hc]
    apply List.count_eq_zero.2
    intro hmem
    have := (List.mem_filter.1 hmem).2
    simp [hsk.2 hc] at this
  · rw [if_neg hc]
    have hns : is_skipped h ex r = false := by
      cases hv : is_skipped h ex r
      · rfl
      · exact absurd (hsk.1 hv) hc
    unfold saved_tkls
    rw [List.count_filter]
    simp [hns]

/-- C7: when the save succeeds, the text `save_tkls` writes is the header line
`# TKL Database v1 <now>` followed by one line per record that is not skipped,
the buckets taken in the order of the letters a to z and the records of a bucket
in list order; the line of a regular record is its type character, usermask,
hostmask, setter, set-at, expire-at and reason joined by single spaces, the line
of a spamfilter its type character, target, action, setter, set-at, expire-at,
duration, tkl-reason and regex.  For a set that holds only the Z-line of `admin`
on `*@1.2.3.4`, set at 100, never expiring, with reason `spam`, the data line is
`Z * 1.2.3.4 admin 100 0 spam`. -/
theorem save_tkls_text (h : Host) (now : Int) (tklines : Nat → List aTKline)
    (ex : Option Nat) (st : Tkldb) (fs : FS) :
    (∃ fs1 : FS, save_tkls h now io_ok tklines ex st fs = .ok fs1 ∧
      fs1 st.file
      = some ("# TKL Database v1 ".toList ++ fmt_ld now ++ ['\n'] ++
          (("abcdefghijklmnopqrstuvwxyz".toList.flatMap
              (fun c => tklines (tkl_hash c))).filter
              (fun r => !(decide (some r.addr = ex) || decide (r.type = h.TKL_SPAMF)
                || decide (r.type = h.TKL_NICK)))).flatMap
            (fun r =>
              (if r.type &&& h.TKL_SPAMF ≠ 0 then
                join_sp [[h.tkl_typetochar r.type], r.usermask, r.hostmask, r.setby,
                  fmt_ld r.set_at, fmt_ld r.expire_at, fmt_ld r.tkl_duration, r.tkl_reason,
                  r.reason]
              else
                join_sp [[h.tkl_typetochar r.type], r.usermask, r.hostmask, r.setby,
                  fmt_ld r.set_at, fmt_ld r.expire_at, r.reason]) ++ ['\n']))) ∧
    ∀ (r : aTKline) (b : Nat), b < 26 → tklines = single_tkl b r → ex = none →
      h.tkl_typetochar r.type = 'Z' → r.type ≠ h.TKL_SPAMF → r.type ≠ h.TKL_NICK →
      r.type &&& h.TKL_SPAMF = 0 →
      r.usermask = "*".toList → r.hostmask = "1.2.3.4".toList → r.setby = "admin".toList →
      r.set_at = 100 → r.expire_at = 0 → r.reason = "spam".toList →
      ∃ fs1 : FS, save_tkls h now io_ok tklines ex st fs = .ok fs1 ∧
        fs1 st.file
          = some ("# TKL Database v1 ".toList ++ fmt_ld now
              ++ "\nZ * 1.2.3.4 admin 100 0 spam\n".toList) := by
  have hletters : "abcdefghijklmnopqrstuvwxyz".toList = bucket_letters := by decide
  have hhdr : "# TKL Database v1 ".toList ++ fmt_ld now ++ ['\n'] = header_line now := by
    have h1 : "# TKL Database v".toList ++ fmt_ld 1 ++ [' '] = "# TKL Database v1 ".toList := by
      decide
    rw [header_line, h1]
  have hline : ∀ r : aTKline,
      (if r.type &&& h.TKL_SPAMF ≠ 0 then
          join_sp [[h.tkl_typetochar r.type], r.usermask, r.hostmask, r.setby,
            fmt_ld r.set_at, fmt_ld r.expire_at, fmt_ld r.tkl_duration, r.tkl_reason,
            r.reason]
        else
          join_sp [[h.tkl_typetochar r.type], r.usermask, r.hostmask, r.setby,
            fmt_ld r.set_at, fmt_ld r.expire_at, r.reason]) ++ ['\n'] = tkl_line h r := by
    intro r
    unfold tkl_line
    split <;> simp [join_sp, spamf_line, regular_line]
  constructor
  · obtain ⟨fs1, hret, hfile⟩ := save_tkls_ok h now tklines ex st fs
    refine ⟨fs1, hret, ?_⟩
    rw [hfile, hletters, bucket_letters_flatMap, hhdr]
    simp only [hline]
    rfl
  · intro r b hb ht hex hZ h1 h2 h3 hu hh hs hsa hea hr
    subst ht hex
    obtain ⟨fs1, hret, hfile⟩ := save_tkls_ok h now (single_tkl b r) none st fs
    refine ⟨fs1, hret, ?_⟩
    rw [hfile]
    have hsaved : saved_tkls h (single_tkl b r) none = [r] := by
      simp [saved_tkls, all_tkls_single b hb r, is_skipped, h1, h2]
    have h100 : fmt_ld 100 = "100".toList := by decide
    have h0 : fmt_ld 0 = "0".toList := by decide
    rw [hsaved, ← hhdr]
    simp [tkl_line, h3, regular_line, hZ, hu, hh, hs, hsa, hea, hr, h100, h0]

theorem save_tkls_text_witness :
    ∃ fs1 : FS, save_tkls sample_host 1400000000 io_ok (single_tkl 25 sample_zline) none
        boot_state (sample_fs []) = .ok fs1 ∧
      fs1 boot_state.file
        = some ("# TKL Database v1 ".toList ++ fmt_ld 1400000000
            ++ "\nZ * 1.2.3.4 admin 100 0 spam\n".toList) :=
  (save_tkls_text sample_host 1400000000 (single_tkl 25 sample_zline) none boot_state
    (sample_fs [])).2 sample_zline 25 (by decide) rfl rfl (by decide) (by decide) (by decide)
    (by decide) rfl rfl rfl rfl rfl rfl

/-! ## Theorems: `%ld` and `atol` -/

theorem digit_char_props (d : Nat) (hd : d < 10) :
    (digit_char d).isDigit = true ∧ (digit_char d).toNat - 48 = d ∧ digit_char d ≠ ' ' ∧
      digit_char d ≠ '\n' ∧ digit_char d ≠ '\r' ∧ digit_char d ≠ NUL ∧ digit_char d ≠ '-' ∧
      digit_char d ≠ '+' ∧ isspace (digit_char d) = false := by
  interval_cases d <;> decide

theorem fmt_digits_mem (fuel : Nat) :
    ∀ (n : Nat) (c : Char), c ∈ fmt_digits fuel n → ∃ d, d < 10 ∧ c = digit_char d := by
  induction fuel with
  | zero => intro n c hc; simp [fmt_digits] at hc
  | succ fuel ih =>
    intro n c hc
    simp only [fmt_digits] at hc
    split at hc
    · rename_i hn
      exact ⟨n, hn, by simpa using hc⟩
    · rcases List.mem_append.1 hc with h | h
      · exact ih _ _ h
      · exact ⟨n % 10, Nat.mod_lt _ (by decide), by simpa using h⟩

theorem fmt_digits_ne_nil (fuel n : Nat) : fmt_digits (fuel + 1) n ≠ [] := by
  simp only [fmt_digits]
  split <;> simp

theorem fmt_digits_length (fuel : Nat) :
    ∀ (k n : Nat), n < 10 ^ (k + 1) → (fmt_digits fuel n).length ≤ k + 1 := by
  induction fuel with
  | zero => intro k n _; simp [fmt_digits]
  | succ fuel ih =>
    intro k n hn
    simp only [fmt_digits]
    split
    · simp
    · rename_i h10
      cases k with
      | zero => exact absurd (by simpa using hn) h10
      | succ k =>
        have hdiv : n / 10 < 10 ^ (k + 1) := by
          rw [Nat.div_lt_iff_lt_mul (by decide)]
          rw [pow_succ] at hn
          exact hn
        have := ih k (n / 10) hdiv
        simp only [List.length_append, List.length_singleton]
        omega

theorem digits_val_snoc (s : CStr) (d : Nat) (hd : d < 10)
    (hs : ∀ c ∈ s, ∃ e, e < 10 ∧ c = digit_char e) :
    ∀ a : Nat, digits_val a (s ++ [digit_char d]) = digits_val a s * 10 + d := by
  induction s with
  | nil =>
    intro a
    have hp := digit_char_props d hd
    simp [digits_val, hp.1, hp.2.1]
  | cons c s ih =>
    intro a
    obtain ⟨e, he, hce⟩ := hs c (List.mem_cons_self c s)
    have hp := digit_char_props e he
    have := ih (fun x hx => hs x (List.mem_cons_of_mem c hx))
    subst hce
    simp [digits_val, hp.1, this]

theorem digits_val_fmt_digits (fuel : Nat) :
    ∀ n : Nat, n < fuel → digits_val 0 (fmt_digits fuel n) = n := by
  induction fuel with
  | zero => intro n hn; omega
  | succ fuel ih =>
    intro n hn
    simp only [fmt_digits]
    split
    · rename_i h10
      have hp := digit_char_props n h10
      simp [digits_val, hp.1, hp.2.1]
    · rename_i h10
      have hlt : n / 10 < fuel := by
        have : n / 10 < n := Nat.div_lt_self (by omega) (by decide)
        omega
      rw [digits_val_snoc _ _ (Nat.mod_lt _ (by decide)) (fmt_digits_mem fuel (n / 10)),
        ih _ hlt]
      omega

theorem fmt_nat_ne_nil (n : Nat) : fmt_nat n ≠ [] := fmt_digits_ne_nil n n

theorem fmt_nat_mem (n : Nat) (c : Char) (hc : c ∈ fmt_nat n) :
    ∃ d, d < 10 ∧ c = digit_char d := fmt_digits_mem _ _ c hc

theorem digits_val_fmt_nat (n : Nat) : digits_val 0 (fmt_nat n) = n :=
  digits_val_fmt_digits (n + 1) n (Nat.lt_succ_self n)

theorem fmt_ld_ne_nil (v : Int) : fmt_ld v ≠ [] := by
  unfold fmt_ld
  split
  · simp
  · exact fmt_nat_ne_nil _

theorem fmt_ld_mem (v : Int) (c : Char) (hc : c ∈ fmt_ld v) :
    c = '-' ∨ ∃ d, d < 10 ∧ c = digit_char d := by
  unfold fmt_ld at hc
  split at hc
  · rcases List.mem_cons.1 hc with h | h
    · exact Or.inl h
    · exact Or.inr (fmt_nat_mem _ _ h)
  · exact Or.inr (fmt_nat_mem _ _ hc)

theorem fmt_ld_char (v : Int) (c : Char) (hc : c ∈ fmt_ld v) :
    c ≠ ' ' ∧ c ≠ '\n' ∧ c ≠ '\r' ∧ c ≠ NUL := by
  rcases fmt_ld_mem v c hc with h | ⟨d, hd, h⟩
  · subst h
    decide
  · subst h
    have hp := digit_char_props d hd
    exact ⟨hp.2.2.1, hp.2.2.2.1, hp.2.2.2.2.1, hp.2.2.2.2.2.1⟩

theorem is_token_iff (t : CStr) :
    is_token t = true ↔ t ≠ [] ∧ ∀ c ∈ t, c ≠ ' ' ∧ c ≠ '\n' ∧ c ≠ '\r' := by
  constructor
  · intro h
    exact ⟨is_token_ne_nil h, is_token_mem h⟩
  · rintro ⟨h1, h2⟩
    simp only [is_token, Bool.and_eq_true, List.all_eq_true]
    constructor
    · cases t with
      | nil => exact absurd rfl h1
      | cons c t => rfl
    · intro c hc
      have := h2 c hc
      simp [this.1, this.2.1, this.2.2]

theorem is_token_fmt_ld (v : Int) : is_token (fmt_ld v) = true :=
  (is_token_iff _).2 ⟨fmt_ld_ne_nil v, fun c hc =>
    ⟨(fmt_ld_char v c hc).1, (fmt_ld_char v c hc).2.1, (fmt_ld_char v c hc).2.2.1⟩⟩

theorem fmt_ld_length (v : Int) (hlo : LONG_MIN ≤ v) (hhi : v ≤ LONG_MAX) :
    (fmt_ld v).length ≤ 20 := by
  have hn : v.natAbs < 10 ^ (18 + 1) := by
    simp only [LONG_MIN, LONG_MAX] at hlo hhi
    norm_num
    omega
  have := fmt_digits_length (v.natAbs + 1) 18 v.natAbs hn
  unfold fmt_ld fmt_nat
  split
  · simp only [List.length_cons]
    omega
  · omega

theorem signed_val_digit (d : Nat) (hd : d < 10) (cs : CStr) :
    signed_val (digit_char d :: cs) = (digits_val 0 (digit_char d :: cs) : Int) := by
  have hp := digit_char_props d hd
  unfold signed_val
  split
  · rename_i r heq
    exact absurd (List.cons.inj heq).1 hp.2.2.2.2.2.2.1
  · rename_i r heq
    exact absurd (List.cons.inj heq).1 hp.2.2.2.2.2.2.2.1
  · rfl

/-- Reading back what `%ld` printed gives the value again, for a `long`. -/
theorem atol_fmt_ld (v : Int) (hlo : LONG_MIN ≤ v) (hhi : v ≤ LONG_MAX) :
    atol (fmt_ld v) = v := by
  have hval : signed_val (skip_space (fmt_ld v)) = v := by
    unfold fmt_ld
    by_cases hneg : v < 0
    · rw [if_pos hneg]
      have hsp : isspace '-' = false := by decide
      simp only [skip_space, hsp, Bool.false_eq_true, if_false, signed_val,
        digits_val_fmt_nat]
      omega
    · rw [if_neg hneg]
      cases hf : fmt_nat v.natAbs with
      | nil => exact absurd hf (fmt_nat_ne_nil _)
      | cons c cs =>
        obtain ⟨d, hd, hcd⟩ :=
          fmt_nat_mem v.natAbs c (by rw [hf]; exact List.mem_cons_self c cs)
        have hp := digit_char_props d hd
        subst hcd
        simp only [skip_space, hp.2.2.2.2.2.2.2.2, Bool.false_eq_true, if_false]
        rw [signed_val_digit d hd, ← hf, digits_val_fmt_nat]
        omega
  unfold atol
  rw [hval]
  simp only [LONG_MIN, LONG_MAX] at hlo hhi ⊢
  rw [if_neg (by omega), if_neg (by omega)]

/-! ## Theorems: saving and loading again -/

/-- One turn of the loop on the line `save_tkls` printed for a storable record
that is not expired: the command of the record is submitted. -/
theorem load_loop_tkl_line (h : Host) (now : Int) (r : aTKline) (rest : List Char)
    (st : Tkldb) (hs : storable h r = true)
    (hexp : ¬ (0 < r.expire_at ∧ r.expire_at < now)) :
    load_loop h now (tkl_line h r ++ rest).length (tkl_line h r ++ rest) st
      = load_loop h now rest.length rest
          (submitted st (replayed_call h r).parc (replayed_call h r).parv) := by
  simp only [storable, Bool.and_eq_true, Bool.or_eq_true, decide_eq_true_eq, bne_iff_ne,
    ne_eq, beq_iff_eq] at hs
  obtain ⟨⟨⟨⟨⟨⟨⟨⟨⟨⟨hc, hhash⟩, hkind⟩, hu⟩, hh⟩, hsb⟩, hr⟩, htr⟩, hnul⟩, hlo, hhi⟩, hlen⟩ := hs
  have hexp2 : ¬ (0 < atol (fmt_ld r.expire_at) ∧ atol (fmt_ld r.expire_at) < now) := by
    rw [atol_fmt_ld _ hlo hhi]
    exact hexp
  have hhead : ([h.tkl_typetochar r.type] : CStr).head? = some (h.tkl_typetochar r.type) := rfl
  by_cases hsp : r.type &&& h.TKL_SPAMF = 0
  · -- regular layout
    have hFf : ¬ (h.tkl_typetochar r.type = 'F' ∨ h.tkl_typetochar r.type = 'f') := by
      intro hx
      have := (decide_eq_decide.1 hkind).1 hx
      exact this hsp
    have hline : tkl_line h r = join_sp [[h.tkl_typetochar r.type], r.usermask, r.hostmask,
        r.setby, fmt_ld r.set_at, fmt_ld r.expire_at, r.reason] ++ ['\n'] := by
      simp [tkl_line, hsp, regular_line, join_sp]
    have hok : regular_fields_ok [h.tkl_typetochar r.type] r.usermask r.hostmask r.setby
        (fmt_ld r.set_at) (fmt_ld r.expire_at) r.reason = true := by
      simp only [regular_fields_ok, hc, hu, hh, hsb, hr, is_token_fmt_ld, hhead,
        Bool.and_eq_true, bne_iff_ne, ne_eq, Option.some.injEq, and_true, true_and]
      exact ⟨⟨hhash, fun hx => hFf (Or.inl hx)⟩, fun hx => hFf (Or.inr hx)⟩
    have hbody : no_crlf (join_sp [[h.tkl_typetochar r.type], r.usermask, r.hostmask,
        r.setby, fmt_ld r.set_at, fmt_ld r.expire_at, r.reason]) :=
      no_crlf_join (no_crlf_token hc) (no_crlf_join (no_crlf_token hu)
        (no_crlf_join (no_crlf_token hh) (no_crlf_join (no_crlf_token hsb)
          (no_crlf_join (no_crlf_token (is_token_fmt_ld _))
            (no_crlf_join (no_crlf_token (is_token_fmt_ld _)) (no_crlf_text hr))))))
    rw [hline] at hnul hlen ⊢
    rw [List.append_assoc, List.singleton_append,
      load_loop_line h now _ rest st (fun hm => (hbody _ hm).1 rfl)
        (by simp only [List.length_append, List.length_singleton] at hlen; omega),
      cstr_of_no_nul _ hnul,
      load_line_regular h now st _ _ _ _ _ _ _ ['\n'] hok (by decide), if_neg hexp2]
    simp [replayed_call, hsp]
  · -- spamfilter layout
    have hFf : h.tkl_typetochar r.type = 'F' ∨ h.tkl_typetochar r.type = 'f' :=
      (decide_eq_decide.1 hkind).2 hsp
    have htr2 : is_token r.tkl_reason = true := by
      rcases htr with h1 | h1
      · exact absurd h1 hsp
      · exact h1
    have hline : tkl_line h r = join_sp [[h.tkl_typetochar r.type], r.usermask, r.hostmask,
        r.setby, fmt_ld r.set_at, fmt_ld r.expire_at, fmt_ld r.tkl_duration, r.tkl_reason,
        r.reason] ++ ['\n'] := by
      simp [tkl_line, hsp, spamf_line, join_sp]
    have hok : spamf_fields_ok [h.tkl_typetochar r.type] r.usermask r.hostmask r.setby
        (fmt_ld r.set_at) (fmt_ld r.expire_at) (fmt_ld r.tkl_duration) r.tkl_reason
        r.reason = true := by
      simp only [spamf_fields_ok, hc, hu, hh, hsb, hr, htr2, is_token_fmt_ld, hhead,
        Bool.and_eq_true, Bool.or_eq_true, beq_iff_eq, Option.some.injEq, and_true, true_and]
      exact hFf
    have hbody : no_crlf (join_sp [[h.tkl_typetochar r.type], r.usermask, r.hostmask,
        r.setby, fmt_ld r.set_at, fmt_ld r.expire_at, fmt_ld r.tkl_duration, r.tkl_reason,
        r.reason]) :=
      no_crlf_join (no_crlf_token hc) (no_crlf_join (no_crlf_token hu)
        (no_crlf_join (no_crlf_token hh) (no_crlf_join (no_crlf_token hsb)
          (no_crlf_join (no_crlf_token (is_token_fmt_ld _))
            (no_crlf_join (no_crlf_token (is_token_fmt_ld _))
              (no_crlf_join (no_crlf_token (is_token_fmt_ld _))
                (no_crlf_join (no_crlf_token htr2) (no_crlf_text hr))))))))
    rw [hline] at hnul hlen ⊢
    rw [List.append_assoc, List.singleton_append,
      load_loop_line h now _ rest st (fun hm => (hbody _ hm).1 rfl)
        (by simp only [List.length_append, List.length_singleton] at hlen; omega),
      cstr_of_no_nul _ hnul,
      load_line_spamfilter h now st _ _ _ _ _ _ _ _ _ ['\n'] hok (by decide), if_neg hexp2]
    simp [replayed_call, hsp]

/-- The loop over the lines of a list of storable, unexpired records submits the
commands of the records, in order. -/
theorem load_loop_tkl_lines (h : Host) (now : Int) (rs : List aTKline) :
    ∀ st : Tkldb,
      (∀ r ∈ rs, storable h r = true ∧ ¬ (0 < r.expire_at ∧ r.expire_at < now)) →
      load_loop h now (rs.flatMap (tkl_line h)).length (rs.flatMap (tkl_line h)) st
        = { st with recursion := if rs = [] then st.recursion else 0,
                    log := st.log ++ rs.map (replayed_call h) } := by
  induction rs with
  | nil =>
    intro st _
    simp [load_loop_nil]
  | cons r rs ih =>
    intro st hall
    have hr := hall r (List.mem_cons_self r rs)
    rw [List.flatMap_cons, load_loop_tkl_line h now r _ st hr.1 hr.2,
      ih _ (fun x hx => hall x (List.mem_cons_of_mem r hx))]
    have hcall : (⟨1, (replayed_call h r).parc, (replayed_call h r).parv⟩ : TklCall)
        = replayed_call h r := by
      unfold replayed_call
      split <;> rfl
    simp only [submitted, hcall, List.map_cons, List.append_assoc, List.singleton_append]
    by_cases hrs : rs = [] <;> simp [hrs]

theorem valid_header_of_save (now : Int) (hlo : LONG_MIN ≤ now) (hhi : now ≤ LONG_MAX) :
    valid_header ("# TKL Database v1 ".toList ++ fmt_ld now) := by
  refine ⟨⟨" v1 ".toList ++ fmt_ld now, ?_⟩, ?_, ?_⟩
  · rw [← List.append_assoc]
    rfl
  · intro hm
    rcases List.mem_append.1 hm with h1 | h1
    · revert h1
      decide
    · exact (fmt_ld_char now _ h1).2.1 rfl
  · have := fmt_ld_length now hlo hhi
    have h18 : "# TKL Database v1 ".toList.length = 18 := by decide
    rw [List.length_append, h18]
    omega

theorem header_line_eq (now : Int) :
    header_line now = ("# TKL Database v1 ".toList ++ fmt_ld now) ++ ['\n'] := by
  have h1 : "# TKL Database v".toList ++ fmt_ld 1 ++ [' '] = "# TKL Database v1 ".toList := by
    decide
  rw [header_line, h1]

/-- C1, as stated, fails: a set whose only record is a never-expiring global
Z-line with an empty reason is saved as a line that ends right after the
expire-at field, and `load_tkls` skips that line, so nothing is replayed. -/
theorem round_trip_loses_empty_reason :
    sample_noreason.type ≠ sample_host.TKL_SPAMF ∧
    sample_noreason.type ≠ sample_host.TKL_NICK ∧
    ¬ (0 < sample_noreason.expire_at ∧ sample_noreason.expire_at < 1400000001) ∧
    ∃ fs1 : FS, save_tkls sample_host 1400000000 io_ok (single_tkl 25 sample_noreason) none
        boot_state (sample_fs []) = .ok fs1 ∧
      fs1 boot_state.file
        = some "# TKL Database v1 1400000000\nZ * 1.2.3.4 admin 100 0 \n".toList ∧
      (load_tkls sample_host 1400000001 fs1 boot_state).log = [] :=
  ⟨by decide, by decide, by decide, _, rfl, by decide, by decide⟩

/-- C1, amended: for every restriction set whose records are neither expired nor
configuration-sourced and are storable in the line format (non-empty space-free
masks, setter and tkl-reason, non-empty reason, no CR, LF or NUL, a type
character that tells the layout, a line that fits the read buffer), loading the
file that a successful `save_tkls(NULL)` wrote replays exactly one command per
record, in save order, carrying the type character, both masks, setter, expire-at,
set-at and reason (for a spamfilter also duration, tkl-reason and regex) of that
record. -/
theorem save_load_round_trip (h : Host) (t_save t_load : Int)
    (tklines : Nat → List aTKline) (st : Tkldb) (fs : FS)
    (hb : st.has_booted = 0)
    (ht : LONG_MIN ≤ t_save ∧ t_save ≤ LONG_MAX)
    (hR : ∀ r ∈ all_tkls tklines,
      r.type ≠ h.TKL_SPAMF ∧ r.type ≠ h.TKL_NICK ∧
      ¬ (0 < r.expire_at ∧ r.expire_at < t_load) ∧ storable h r = true) :
    ∃ fs1 : FS, save_tkls h t_save io_ok tklines none st fs = .ok fs1 ∧
      (load_tkls h t_load fs1 st).log
        = st.log ++ (all_tkls tklines).map (replayed_call h) := by
  have hsaved : saved_tkls h tklines none = all_tkls tklines := by
    unfold saved_tkls
    apply List.filter_eq_self.2
    intro r hr
    have := hR r hr
    simp [is_skipped, this.1, this.2.1]
  obtain ⟨fs1, hret, hfile⟩ := save_tkls_ok h t_save tklines none st fs
  refine ⟨fs1, hret, ?_⟩
  rw [hsaved, header_line_eq, List.append_assoc, List.singleton_append] at hfile
  rw [load_tkls_header h t_load _ st _ _ hb (valid_header_of_save t_save ht.1 ht.2) hfile,
    load_loop_tkl_lines h t_load _ st (fun r hr => ⟨(hR r hr).2.2.2, (hR r hr).2.2.1⟩)]

theorem save_load_round_trip_witness :
    ∃ fs1 : FS, save_tkls sample_host 1400000000 io_ok (single_tkl 25 sample_zline) none
        boot_state (sample_fs []) = .ok fs1 ∧
      (load_tkls sample_host 1400000001 fs1 boot_state).log
        = boot_state.log ++ (all_tkls (single_tkl 25 sample_zline)).map
            (replayed_call sample_host) :=
  save_load_round_trip sample_host 1400000000 1400000001 (single_tkl 25 sample_zline)
    boot_state (sample_fs []) (by decide) (by decide)
    (by
      intro r hr
      rw [all_tkls_single 25 (by decide) sample_zline] at hr
      rw [List.mem_singleton.1 hr]
      decide)

/-! ## Theorems: `bs_banned` and the ban check -/

/-- While the name of the checked channel is in the guard, `bs_banned` returns 0
at once. -/
theorem bs_banned_body_guarded {Client : Type} (H : ChanHost Client)
    (isb : aChannel → Guard → Res (Option Ban × Guard)) (chptr : aChannel) (ban : CStr)
    (g : Guard) (hg : guard_has g chptr.chname = true) :
    bs_banned_body H isb chptr ban g = .ok (0, g) := by
  simp [bs_banned_body, hg]

/-- When the callback answers 0 and leaves the guard alone, the ban check is
decided by the direct bans. -/
theorem is_banned_loop_direct (ext : CStr → Guard → Res (Int × Guard)) (direct : CStr → Bool)
    (g : Guard) (hext : ∀ ban, ext ban g = .ok (0, g)) (bs : List Ban) :
    ∃ res, is_banned_loop ext direct bs g = .ok (res, g) ∧
      (res.isSome = bs.any (fun b => !is_bansync_ban b.banstr && direct b.banstr)) := by
  induction bs with
  | nil => exact ⟨none, rfl, rfl⟩
  | cons b bs ih =>
    obtain ⟨res, hres, hsome⟩ := ih
    by_cases hb : is_bansync_ban b.banstr = true
    · refine ⟨res, ?_, ?_⟩
      · simp [is_banned_loop, hb, hext, hres]
      · simp [hb, hsome]
    · by_cases hd : direct b.banstr = true
      · refine ⟨some b, ?_, ?_⟩
        · simp [is_banned_loop, hb, hd]
        · simp [hb, hd]
      · refine ⟨res, ?_, ?_⟩
        · simp [is_banned_loop, hb, hd, hres]
        · simp [hb, hd, hsome]

/-- The ban check of a channel whose name is in the guard looks at the direct
bans of that channel only. -/
theorem is_banned_guarded {Client : Type} (H : ChanHost Client) (fuel : Nat) (sptr : Client)
    (chan : aChannel) (chktype : Int) (g : Guard) (hg : guard_has g chan.chname = true) :
    ∃ res, is_banned H (fuel + 1) sptr chan chktype g = .ok (res, g) ∧
      res.isSome = direct_banned H sptr chan chktype := by
  unfold is_banned direct_banned
  exact is_banned_loop_direct _ _ g
    (fun ban => bs_banned_body_guarded H _ chan ban g hg) chan.banlist

theorem guard_has_idle (g : Guard) (hg : guard_idle g) (name : CStr) :
    guard_has g name = false := by
  induction g with
  | nil => rfl
  | cons e g ih =>
    have he : e = none := hg e (List.mem_cons_self e g)
    subst he
    simp [guard_has, ih (fun x hx => hg x (List.mem_cons_of_mem _ hx))]

theorem guard_idle_replicate (n : Nat) : guard_idle (List.replicate n none) := by
  intro e he
  exact (List.mem_replicate.1 he).2

theorem reserve_slot_idle (g : Guard) (hg : guard_idle g) (tok : CStr) :
    ∃ tail, guard_idle tail ∧ reserve_slot g tok = (0, some tok :: tail) := by
  cases g with
  | nil =>
    refine ⟨List.replicate 31 none, guard_idle_replicate 31, ?_⟩
    simp [reserve_slot, first_free, List.replicate]
  | cons e g1 =>
    have he : e = none := hg e (List.mem_cons_self e g1)
    subst he
    exact ⟨g1, fun x hx => hg x (List.mem_cons_of_mem _ hx), by simp [reserve_slot, first_free]⟩

/-- One call of `bs_banned` from an idle guard, for a ban whose target is spelled
as the channel is named: it terminates, leaves the guard idle, and answers
whether the client matches a direct ban of the target channel. -/
theorem bs_banned_body_idle {Client : Type} (H : ChanHost Client) (fuel : Nat) (sptr : Client)
    (chptr : aChannel) (ban : CStr) (chktype : Int) (g : Guard) (hg : guard_idle g)
    (hban : exact_target H ban) :
    ∃ r g1,
      bs_banned_body H (fun chan g2 => is_banned H (fuel + 1) sptr chan chktype g2)
        chptr ban g = .ok (r, g1) ∧
      guard_idle g1 ∧
      (r ≠ 0 ↔ ∃ tok T, ban_target ban = some tok ∧ H.get_channel tok = some T ∧
        direct_banned H sptr T chktype = true) := by
  obtain ⟨hlen, hexact⟩ := hban
  unfold bs_banned_body
  rw [guard_has_idle g hg, if_neg (by simp), if_neg (by omega)]
  dsimp only
  rw [show (strtok (strtok [] (some ban) [':']).2 none [':']).1 = ban_target ban from rfl]
  cases htok : ban_target ban with
  | none => exact ⟨0, g, rfl, hg, by simp⟩
  | some tok =>
    dsimp only
    cases hch : H.get_channel tok with
    | none => exact ⟨0, g, rfl, hg, by simp [hch]⟩
    | some T =>
      have hname : T.chname = tok := hexact tok T htok hch
      obtain ⟨tail, htail, hslot⟩ := reserve_slot_idle g hg tok
      have hguard : guard_has (some tok :: tail) T.chname = true := by
        simp [guard_has, hname]
      obtain ⟨res, hres, hsome⟩ := is_banned_guarded H fuel sptr T chktype _ hguard
      refine ⟨if res.isSome then 1 else 0, none :: tail, ?_, ?_, ?_⟩
      · dsimp only
        rw [hslot]
        dsimp only
        rw [hres]
        simp
      · intro x hx
        rcases List.mem_cons.1 hx with h1 | h1
        · exact h1
        · exact htail x h1
      · constructor
        · intro hr
          refine ⟨tok, T, rfl, hch, ?_⟩
          rw [← hsome]
          by_contra hn
          simp [hn] at hr
        · rintro ⟨tok2, T2, ht2, hc2, hd2⟩
          have e1 : tok2 = tok := (Option.some.inj ht2).symm
          subst e1
          rw [hch] at hc2
          have e2 : T2 = T := (Option.some.inj hc2).symm
          subst e2
          rw [← hsome] at hd2
          simp [hd2]

/-- The loop of the ban check from an idle guard, over bans whose `~S` entries
spell their targets exactly. -/
theorem is_banned_loop_idle {Client : Type} (H : ChanHost Client) (fuel : Nat) (sptr : Client)
    (chptr : aChannel) (chktype : Int) (bs : List Ban)
    (hbs : ∀ b ∈ bs, is_bansync_ban b.banstr = true → exact_target H b.banstr) :
    ∀ g : Guard, guard_idle g →
      ∃ res g1,
        is_banned_loop
          (fun ban g1 =>
            bs_banned_body H (fun chan g2 => is_banned H (fuel + 1) sptr chan chktype g2)
              chptr ban g1)
          (fun banstr => H.ban_matches sptr chptr banstr chktype) bs g = .ok (res, g1) ∧
        guard_idle g1 ∧
        (res.isSome = true ↔
          (bs.any (fun b => !is_bansync_ban b.banstr
              && H.ban_matches sptr chptr b.banstr chktype) = true
            ∨ delegated_banned H sptr bs chktype)) := by
  induction bs with
  | nil =>
    intro g hg
    refine ⟨none, g, rfl, hg, ?_⟩
    simp [delegated_banned]
  | cons b bs ih =>
    intro g hg
    have ih2 := ih (fun x hx => hbs x (List.mem_cons_of_mem b hx))
    by_cases hb : is_bansync_ban b.banstr = true
    · obtain ⟨r, g1, hcall, hg1, hr⟩ := bs_banned_body_idle H fuel sptr chptr b.banstr chktype g
        hg (hbs b (List.mem_cons_self b bs) hb)
      by_cases hr0 : r = 0
      · obtain ⟨res, g2, hres, hg2, hiff⟩ := ih2 g1 hg1
        refine ⟨res, g2, ?_, hg2, ?_⟩
        · simp only [is_banned_loop, hb, if_true, hcall, hr0]
          simpa using hres
        · rw [hiff]
          have hnot : ¬ ∃ tok T, ban_target b.banstr = some tok ∧ H.get_channel tok = some T ∧
              direct_banned H sptr T chktype = true := fun hx => (hr.2 hx) hr0
          constructor
          · rintro (h1 | ⟨x, hx, h2⟩)
            · left
              simp [hb, h1]
            · right
              exact ⟨x, List.mem_cons_of_mem b hx, h2⟩
          · rintro (h1 | ⟨x, hx, h2, h3⟩)
            · left
              simpa [hb] using h1
            · right
              rcases List.mem_cons.1 hx with h4 | h4
              · subst h4
                exact absurd h3 hnot
              · exact ⟨x, h4, h2, h3⟩
      · refine ⟨some b, g1, ?_, hg1, ?_⟩
        · simp only [is_banned_loop, hb, if_true, hcall]
          simp [hr0]
        · simp only [Option.isSome_some, true_iff]
          right
          exact ⟨b, List.mem_cons_self b bs, hb, hr.1 hr0⟩
    · by_cases hd : H.ban_matches sptr chptr b.banstr chktype = true
      · refine ⟨some b, g, ?_, hg, ?_⟩
        · simp [is_banned_loop, hb, hd]
        · simp [hb, hd]
      · obtain ⟨res, g2, hres, hg2, hiff⟩ := ih2 g hg
        refine ⟨res, g2, ?_, hg2, ?_⟩
        · simp [is_banned_loop, hb, hd, hres]
        · rw [hiff]
          constructor
          · rintro (h1 | ⟨x, hx, h2⟩)
            · left
              simp [hb, hd, h1]
            · right
              exact ⟨x, List.mem_cons_of_mem b hx, h2⟩
          · rintro (h1 | ⟨x, hx, h2, h3⟩)
            · left
              simpa [hb, hd] using h1
            · right
              rcases List.mem_cons.1 hx with h4 | h4
              · subst h4
                exact absurd h2 hb
              · exact ⟨x, h4, h2, h3⟩

/-- Delegation is one level deep.  From an idle guard, for a channel whose `~S`
bans spell their targets exactly, the host's ban check terminates (two levels of
nesting suffice), leaves the guard idle, and reports banned exactly when the
client matches a direct ban of the channel or a direct ban of a channel that one
of its `~S` bans names. -/
theorem is_banned_one_level {Client : Type} (H : ChanHost Client) (fuel : Nat) (sptr : Client)
    (chan : aChannel) (chktype : Int) (g : Guard) (hg : guard_idle g)
    (hbans : ∀ b ∈ chan.banlist, is_bansync_ban b.banstr = true → exact_target H b.banstr) :
    ∃ res g1, is_banned H (fuel + 2) sptr chan chktype g = .ok (res, g1) ∧ guard_idle g1 ∧
      (res.isSome = true ↔
        (direct_banned H sptr chan chktype = true
          ∨ delegated_banned H sptr chan.banlist chktype)) := by
  have := is_banned_loop_idle H fuel sptr chan chktype chan.banlist hbans g hg
  unfold direct_banned
  rw [is_banned]
  exact this

/-- C3, as stated, fails: `#a` delegates to `#b`, `#b` delegates to `#c`, the
client matches a direct ban of `#c` and none of `#a` or `#b`, and the check of
the client against `#a` terminates with the answer not banned. -/
theorem chain_not_followed :
    is_bansync_ban "~S:#b".toList = true ∧
    ban_target "~S:#b".toList = some chan_b.chname ∧
    chain_host.get_channel chan_b.chname = some chan_b ∧
    is_bansync_ban "~S:#c".toList = true ∧
    ban_target "~S:#c".toList = some chan_c.chname ∧
    chain_host.get_channel chan_c.chname = some chan_c ∧
    direct_banned chain_host () chan_c 0 = true ∧
    direct_banned chain_host () chan_a 0 = false ∧
    direct_banned chain_host () chan_b 0 = false ∧
    is_banned chain_host 8 () chan_a 0 bs_guard_init = .ok (none, bs_guard_init) := by
  decide

/-- C3, amended: delegation is followed one level only.  For channels A, B, C
where A carries `~S` bans, each shorter than the 64 characters of `banstr` and all
naming B exactly, and B carries a `~S` ban naming C, and for every client that
matches a direct ban of C and none of A or B, the check of the client against A,
from an idle guard, terminates and reports not banned. -/
theorem delegation_not_chained {Client : Type} (H : ChanHost Client) (fuel : Nat)
    (sptr : Client) (A B C : aChannel) (chktype : Int) (g : Guard)
    (hg : guard_idle g)
    (hA : ∀ b ∈ A.banlist, is_bansync_ban b.banstr = true →
      b.banstr.length < 64 ∧ ban_target b.banstr = some B.chname)
    (_hAB : ∃ b ∈ A.banlist, is_bansync_ban b.banstr = true)
    (hB : H.get_channel B.chname = some B)
    (_hBC : ∃ b ∈ B.banlist, is_bansync_ban b.banstr = true ∧
      ban_target b.banstr = some C.chname)
    (_hC : H.get_channel C.chname = some C)
    (_hdC : direct_banned H sptr C chktype = true)
    (hdA : direct_banned H sptr A chktype = false)
    (hdB : direct_banned H sptr B chktype = false) :
    ∃ g1, is_banned H (fuel + 2) sptr A chktype g = .ok (none, g1) ∧ guard_idle g1 := by
  have hexact : ∀ b ∈ A.banlist, is_bansync_ban b.banstr = true → exact_target H b.banstr := by
    intro b hb hs
    obtain ⟨hlen, htok⟩ := hA b hb hs
    refine ⟨hlen, ?_⟩
    intro tok T ht hch
    rw [htok] at ht
    have e1 : tok = B.chname := (Option.some.inj ht).symm
    subst e1
    rw [hB] at hch
    rw [← Option.some.inj hch]
  obtain ⟨res, g1, hres, hg1, hiff⟩ := is_banned_one_level H fuel sptr A chktype g hg hexact
  have hnone : res = none := by
    cases hr : res with
    | none => rfl
    | some b0 =>
      exfalso
      rw [hr] at hiff
      rcases hiff.1 rfl with h1 | ⟨b, hb, hs, tok, T, ht, hch, hd⟩
      · rw [hdA] at h1
        exact Bool.false_ne_true h1
      · rw [(hA b hb hs).2] at ht
        have e1 : tok = B.chname := (Option.some.inj ht).symm
        subst e1
        rw [hB] at hch
        rw [← Option.some.inj hch, hdB] at hd
        exact Bool.false_ne_true hd
  rw [hnone] at hres
  exact ⟨g1, hres, hg1⟩

theorem delegation_not_chained_witness :
    ∃ g1, is_banned chain_host 2 () chan_a 0 bs_guard_init = .ok (none, g1) ∧ guard_idle g1 :=
  delegation_not_chained chain_host 0 () chan_a chan_b chan_c 0 bs_guard_init
    (guard_idle_replicate 32) (by decide) (by decide) (by decide) (by decide) (by decide)
    (by decide) (by decide) (by decide)

/-! ## Theorems: a cycle spelled in another letter case -/

theorem guard_has_spelled (g : Guard) (hg : guard_spelled g) :
    guard_has g "#A".toList = false ∧ guard_has g "#B".toList = false := by
  induction g with
  | nil => exact ⟨rfl, rfl⟩
  | cons e g ih =>
    have ih2 := ih (fun x hx => hg x (List.mem_cons_of_mem e hx))
    rcases hg e (List.mem_cons_self e g) with h | h | h <;> subst h
    · simpa [guard_has] using ih2
    · have h1 : decide ("#a".toList = "#A".toList) = false := by decide
      have h2 : decide ("#a".toList = "#B".toList) = false := by decide
      simp only [guard_has, h1, h2, Bool.false_or]
      exact ih2
    · have h1 : decide ("#b".toList = "#A".toList) = false := by decide
      have h2 : decide ("#b".toList = "#B".toList) = false := by decide
      simp only [guard_has, h1, h2, Bool.false_or]
      exact ih2

theorem guard_spelled_reserve (g : Guard) (hg : guard_spelled g) (tok : CStr)
    (htok : tok = "#a".toList ∨ tok = "#b".toList) :
    guard_spelled (reserve_slot g tok).2 := by
  have hnew : (some tok : Option CStr) = none ∨ some tok = some "#a".toList
      ∨ some tok = some "#b".toList := by
    rcases htok with h | h <;> subst h
    · exact Or.inr (Or.inl rfl)
    · exact Or.inr (Or.inr rfl)
  unfold reserve_slot
  split
  · intro e he
    rcases List.mem_or_eq_of_mem_set he with h | h
    · exact hg e h
    · exact h ▸ hnew
  · intro e he
    rcases List.mem_or_eq_of_mem_set he with h | h
    · rcases List.mem_append.1 h with h1 | h1
      · exact hg e h1
      · exact Or.inl (List.mem_replicate.1 h1).2
    · exact h ▸ hnew

/-- When the nested ban check runs out of fuel, so does `bs_banned`. -/
theorem bs_banned_body_out_of_fuel {Client : Type} (H : ChanHost Client)
    (isb : aChannel → Guard → Res (Option Ban × Guard)) (chptr : aChannel) (ban : CStr)
    (g : Guard) (tok : CStr) (T : aChannel)
    (hgh : guard_has g chptr.chname = false) (hlen : ban.length < 64)
    (htok : ban_target ban = some tok) (hch : H.get_channel tok = some T)
    (hdiv : isb T (reserve_slot g tok).2 = .out_of_fuel) :
    bs_banned_body H isb chptr ban g = .out_of_fuel := by
  unfold bs_banned_body
  rw [hgh, if_neg (by simp), if_neg (by omega)]
  dsimp only
  rw [show (strtok (strtok [] (some ban) [':']).2 none [':']).1 = ban_target ban from rfl, htok]
  dsimp only
  rw [hch]
  dsimp only
  rw [hdiv]

/-- In the cycle between `#A` and `#B` whose bans spell the targets `#b` and
`#a`, the ban check of either channel exceeds every nesting depth. -/
theorem is_banned_cycle_spelled (fuel : Nat) :
    ∀ g : Guard, guard_spelled g →
      is_banned cycle_host fuel () cyc_a 0 g = .out_of_fuel ∧
      is_banned cycle_host fuel () cyc_b 0 g = .out_of_fuel := by
  induction fuel with
  | zero => intro g _; exact ⟨rfl, rfl⟩
  | succ fuel ih =>
    intro g hg
    have hgh := guard_has_spelled g hg
    have hsa : is_bansync_ban "~S:#a".toList = true := by decide
    have hsb : is_bansync_ban "~S:#b".toList = true := by decide
    constructor
    · have hcall := bs_banned_body_out_of_fuel cycle_host
        (fun chan g2 => is_banned cycle_host fuel () chan 0 g2) cyc_a "~S:#b".toList g
        "#b".toList cyc_b hgh.1 (by decide) (by decide) (by decide)
        (ih _ (guard_spelled_reserve g hg _ (Or.inr rfl))).2
      simp only [is_banned, cyc_a, is_banned_loop, hsb, if_true]
      simp only [cyc_a] at hcall
      rw [hcall]
    · have hcall := bs_banned_body_out_of_fuel cycle_host
        (fun chan g2 => is_banned cycle_host fuel () chan 0 g2) cyc_b "~S:#a".toList g
        "#a".toList cyc_a hgh.2 (by decide) (by decide) (by decide)
        (ih _ (guard_spelled_reserve g hg _ (Or.inl rfl))).1
      simp only [is_banned, cyc_b, is_banned_loop, hsa, if_true]
      simp only [cyc_b] at hcall
      rw [hcall]

/-- C2 fails on the code: `#A` carries `~S:#b` and `#B` carries `~S:#a`, the host
resolves `#b` to `#B` and `#a` to `#A`, both bans pass `bs_param`, and the ban
check of a client against `#A` never returns: whatever nesting depth is allowed,
it is exceeded. -/
theorem is_banned_cycle_diverges :
    cycle_host.get_channel "#b".toList = some cyc_b ∧
    cycle_host.get_channel "#a".toList = some cyc_a ∧
    bs_param "~S:#b".toList = some "~S:#b".toList ∧
    bs_param "~S:#a".toList = some "~S:#a".toList ∧
    ∀ fuel : Nat, is_banned cycle_host fuel () cyc_a 0 bs_guard_init = .out_of_fuel := by
  refine ⟨by decide, by decide, by decide, by decide, ?_⟩
  intro fuel
  exact (is_banned_cycle_spelled fuel bs_guard_init
    (fun e he => Or.inl (guard_idle_replicate 32 e he))).1

/-- A cycle spelled exactly is harmless: when every `~S` ban of A names B exactly as
B is named, the check of a client against A from an idle guard terminates and
reports banned exactly when the client matches a direct ban of A or of B,
whatever bans B carries (a ban of B that delegates back to A included). -/
theorem is_banned_cycle_exact {Client : Type} (H : ChanHost Client) (fuel : Nat)
    (sptr : Client) (A B : aChannel) (chktype : Int) (g : Guard)
    (hg : guard_idle g)
    (hA : ∀ b ∈ A.banlist, is_bansync_ban b.banstr = true →
      b.banstr.length < 64 ∧ ban_target b.banstr = some B.chname)
    (hAB : ∃ b ∈ A.banlist, is_bansync_ban b.banstr = true)
    (hB : H.get_channel B.chname = some B) :
    ∃ res g1, is_banned H (fuel + 2) sptr A chktype g = .ok (res, g1) ∧ guard_idle g1 ∧
      (res.isSome = true ↔
        (direct_banned H sptr A chktype = true ∨ direct_banned H sptr B chktype = true)) := by
  have hexact : ∀ b ∈ A.banlist, is_bansync_ban b.banstr = true → exact_target H b.banstr := by
    intro b hb hs
    obtain ⟨hlen, htok⟩ := hA b hb hs
    refine ⟨hlen, ?_⟩
    intro tok T ht hch
    rw [htok] at ht
    have e1 : tok = B.chname := (Option.some.inj ht).symm
    subst e1
    rw [hB] at hch
    rw [← Option.some.inj hch]
  obtain ⟨res, g1, hres, hg1, hiff⟩ := is_banned_one_level H fuel sptr A chktype g hg hexact
  refine ⟨res, g1, hres, hg1, ?_⟩
  rw [hiff]
  constructor
  · rintro (h1 | ⟨b, hb, hs, tok, T, ht, hch, hd⟩)
    · exact Or.inl h1
    · rw [(hA b hb hs).2] at ht
      have e1 : tok = B.chname := (Option.some.inj ht).symm
      subst e1
      rw [hB] at hch
      rw [← Option.some.inj hch] at hd
      exact Or.inr hd
  · rintro (h1 | h1)
    · exact Or.inl h1
    · obtain ⟨b, hb, hs⟩ := hAB
      exact Or.inr ⟨b, hb, hs, B.chname, B, (hA b hb hs).2, hB, h1⟩

/-! ## Theorems: the accepted parameters of `bs_param` -/

/-- C20: `bs_param` accepts exactly the well-formed parameters: a parameter made
of `~`, one arbitrary character, `:`, `#` and any text, without a comma, is
returned unchanged; every other parameter is rejected (NULL), where `match`
returns 0 exactly on a glob match. -/
theorem bs_param_accepts_exactly (param : CStr) :
    ((∃ c rest, param = '~' :: c :: ':' :: '#' :: rest) ∧ ',' ∉ param →
      bs_param param = some param) ∧
    (¬ ((∃ c rest, param = '~' :: c :: ':' :: '#' :: rest) ∧ ',' ∉ param) →
      bs_param param = none) := by
  constructor
  · rintro ⟨hshape, hcomma⟩
    have hg : glob_match "~?:#*".toList param = true := (glob_match_bs_mask param).2 hshape
    have hs : strchr_found param ',' = false := by
      rw [Bool.eq_false_iff, Ne, strchr_found_iff]
      exact hcomma
    unfold bs_param
    rw [irc_match, hg, hs]
    simp
  · intro hnot
    unfold bs_param
    rw [if_pos]
    by_cases hg : glob_match "~?:#*".toList param = true
    · right
      rw [strchr_found_iff]
      by_contra hcomma
      exact hnot ⟨(glob_match_bs_mask param).1 hg, hcomma⟩
    · left
      rw [Bool.not_eq_true] at hg
      rw [irc_match, hg]
      decide

theorem bs_param_accepts_exactly_witness :
    bs_param "~S:#chan".toList = some "~S:#chan".toList ∧
    bs_param "S:#chan".toList = none :=
  ⟨(bs_param_accepts_exactly "~S:#chan".toList).1
      ⟨⟨'S', "chan".toList, rfl⟩, by decide⟩,
   (bs_param_accepts_exactly "S:#chan".toList).2 (by
      rintro ⟨⟨c, rest, h⟩, _⟩
      exact absurd (List.cons.inj h).1 (by decide))⟩

/-! ## Theorems: the header of the database file -/

theorem strncmp_eq_initial (n : Nat) :
    ∀ a b : CStr, b.length = n → strncmp_eq n a b = true → b <+: a := by
  induction n with
  | zero =>
    intro a b hb _
    rw [List.length_eq_zero.1 hb]
    exact List.nil_prefix
  | succ n ih =>
    intro a b hb hcmp
    cases b with
    | nil => simp at hb
    | cons y b =>
      cases a with
      | nil => simp [strncmp_eq] at hcmp
      | cons x a =>
        simp only [strncmp_eq, Bool.and_eq_true, decide_eq_true_eq] at hcmp
        obtain ⟨hxy, hrest⟩ := hcmp
        subst hxy
        obtain ⟨t, ht⟩ := ih a b (by simpa using hb) hrest
        exact ⟨t, by rw [List.cons_append, ht]⟩

theorem cstr_initial (b : List Char) : cstr b <+: b := by
  induction b with
  | nil => exact List.prefix_refl _
  | cons c b ih =>
    simp only [cstr]
    split
    · exact List.nil_prefix
    · obtain ⟨t, ht⟩ := ih
      exact ⟨t, by rw [List.cons_append, ht]⟩

theorem fgets_read_initial (n : Nat) : ∀ fd : List Char, (fgets_read n fd).1 <+: fd := by
  induction n with
  | zero => intro fd; exact List.nil_prefix
  | succ n ih =>
    intro fd
    cases fd with
    | nil => exact List.nil_prefix
    | cons c fd =>
      simp only [fgets_read]
      split
      · exact ⟨fd, rfl⟩
      · obtain ⟨t, ht⟩ := ih fd
        exact ⟨t, by rw [List.cons_append, ht]⟩

theorem initial_takeWhile (p : Char → Bool) (l fd : List Char) (hl : l <+: fd)
    (hp : ∀ c ∈ l, p c = true) : l <+: fd.takeWhile p := by
  induction l generalizing fd with
  | nil => exact List.nil_prefix
  | cons c l ih =>
    obtain ⟨t, ht⟩ := hl
    subst ht
    have hc : p c = true := hp c (List.mem_cons_self c l)
    obtain ⟨t2, ht2⟩ := ih (l ++ t) ⟨t, rfl⟩ (fun d hd => hp d (List.mem_cons_of_mem c hd))
    refine ⟨t2, ?_⟩
    simp only [List.cons_append, List.takeWhile_cons, hc, if_true]
    rw [← ht2]

/-- C13: when the first line of the live file does not begin with the signature
text `# TKL Database` (an empty file included), `load_tkls` returns with the state
as it was: no command is submitted, whatever the other lines hold. -/
theorem load_tkls_bad_signature (h : Host) (now : Int) (fs : FS) (st : Tkldb)
    (fd : List Char) (hfile : fs st.file = some fd)
    (hsig : ¬ signature <+: fd.takeWhile (fun c => c != '\n')) :
    load_tkls h now fs st = st ∧ (load_tkls h now fs st).log = st.log := by
  have hmain : load_tkls h now fs st = st := by
    unfold load_tkls
    split
    · rfl
    · rw [hfile]
      dsimp only
      rw [if_pos]
      rw [Bool.eq_false_iff]
      intro hcmp
      apply hsig
      have h1 := strncmp_eq_initial 14 _ signature (by decide) hcmp
      have h2 : signature <+: fd := by
        cases hg : fgets 2048 fd with
        | none =>
          rw [hg] at h1
          exact absurd (List.prefix_nil.1 h1) (by decide)
        | some r =>
          rw [hg] at h1
          cases fd with
          | nil => simp [fgets] at hg
          | cons c fd =>
            simp only [fgets, Option.some.injEq] at hg
            rw [← hg] at h1
            exact (h1.trans (cstr_initial _)).trans (fgets_read_initial _ _)
      exact initial_takeWhile _ _ _ h2 (by decide)
  exact ⟨hmain, by rw [hmain]⟩

theorem load_tkls_bad_signature_witness :
    load_tkls sample_host 1400000000
        (sample_fs "#TKL Database v1 1\nZ * 1.2.3.4 admin 100 0 spam\n".toList) boot_state
      = boot_state ∧
    (load_tkls sample_host 1400000000 (sample_fs []) boot_state).log = boot_state.log :=
  ⟨(load_tkls_bad_signature sample_host 1400000000
      (sample_fs "#TKL Database v1 1\nZ * 1.2.3.4 admin 100 0 spam\n".toList) boot_state
      "#TKL Database v1 1\nZ * 1.2.3.4 admin 100 0 spam\n".toList (by decide) (by decide)).1,
   (load_tkls_bad_signature sample_host 1400000000 (sample_fs []) boot_state []
      (by decide) (by decide)).2⟩

/-- C14 fails on the code: a file whose header announces format version 2 is
replayed exactly like a version 1 file; `load_tkls` compares the 14 characters of
the signature and never reads the version. -/
theorem load_tkls_ignores_version :
    (load_tkls sample_host 1400000001 (sample_fs sample_db_v2) boot_state).log
      = [sample_call] ∧
    (load_tkls sample_host 1400000001 (sample_fs sample_db_v2) boot_state).log
      = (load_tkls sample_host 1400000001 (sample_fs sample_db) boot_state).log := by
  constructor <;> decide

/-! ## Theorems: the re-entrancy flag -/

theorem load_line_log (h : Host) (now : Int) (st : Tkldb) (buf : CStr) :
    ∃ added, (load_line h now st buf).log = st.log ++ added ∧
      (∀ c ∈ added, c.recursion = 1) ∧
      (st.recursion = 0 → (load_line h now st buf).recursion = 0) := by
  unfold load_line
  cases parse_line h now buf with
  | none => exact ⟨[], by simp, by simp, fun h0 => h0⟩
  | some r =>
    refine ⟨[⟨1, r.1, r.2⟩], ?_, ?_, ?_⟩
    · simp [m_tkl]
    · intro c hc
      rw [List.mem_singleton.1 hc]
    · intro _
      rfl

theorem load_loop_log (h : Host) (now : Int) (n : Nat) :
    ∀ (fd : List Char) (st : Tkldb),
      ∃ added, (load_loop h now n fd st).log = st.log ++ added ∧
        (∀ c ∈ added, c.recursion = 1) ∧
        (st.recursion = 0 → (load_loop h now n fd st).recursion = 0) := by
  induction n with
  | zero => intro fd st; exact ⟨[], by simp [load_loop], by simp, fun h0 => h0⟩
  | succ n ih =>
    intro fd st
    unfold load_loop
    cases fgets 2048 fd with
    | none => exact ⟨[], by simp, by simp, fun h0 => h0⟩
    | some r =>
      obtain ⟨a1, hl1, hr1, hz1⟩ := load_line_log h now st (cstr r.1)
      obtain ⟨a2, hl2, hr2, hz2⟩ := ih r.2 (load_line h now st (cstr r.1))
      refine ⟨a1 ++ a2, ?_, ?_, ?_⟩
      · dsimp only
        rw [hl2, hl1, List.append_assoc]
      · intro c hc
        rcases List.mem_append.1 hc with hc1 | hc2
        · exact hr1 c hc1
        · exact hr2 c hc2
      · intro h0
        exact hz2 (hz1 h0)

theorem load_tkls_log (h : Host) (now : Int) (fs : FS) (st : Tkldb) :
    ∃ added, (load_tkls h now fs st).log = st.log ++ added ∧
      (∀ c ∈ added, c.recursion = 1) ∧
      (st.recursion = 0 → (load_tkls h now fs st).recursion = 0) := by
  unfold load_tkls
  split
  · exact ⟨[], by simp, by simp, fun h0 => h0⟩
  · split
    · exact ⟨[], by simp, by simp, fun h0 => h0⟩
    · dsimp only
      split
      · exact ⟨[], by simp, by simp, fun h0 => h0⟩
      · exact load_loop_log h now _ _ st

/-- C19: every command that `load_tkls` replays runs with the re-entrancy flag
`recursion` set to 1, and `tkldb_tkl_add`, run by the add event of such a command,
returns without saving; once `load_tkls` has returned the flag is 0 again, and
`tkldb_tkl_add` then performs `save_tkls(NULL)`: one save of the full set with
nothing excluded. -/
theorem load_tkls_replay_triggers_no_save (h : Host) (now : Int) (fs : FS) (st : Tkldb)
    (now2 : Int) (io : IoOutcome) (tklines : Nat → List aTKline) (fs2 : FS) :
    (∃ added, (load_tkls h now fs st).log = st.log ++ added ∧
      ∀ c ∈ added, c.recursion = 1 ∧
        ∀ st1 : Tkldb, st1.recursion = c.recursion →
          tkldb_tkl_add h now2 io tklines st1 fs2 = .ok fs2) ∧
    (st.recursion = 0 →
      (load_tkls h now fs st).recursion = 0 ∧
      tkldb_tkl_add h now2 io tklines (load_tkls h now fs st) fs2
        = save_tkls h now2 io tklines none (load_tkls h now fs st) fs2) := by
  obtain ⟨added, hlog, hrec, hz⟩ := load_tkls_log h now fs st
  constructor
  · refine ⟨added, hlog, ?_⟩
    intro c hc
    refine ⟨hrec c hc, ?_⟩
    intro st1 h1
    rw [hrec c hc] at h1
    simp [tkldb_tkl_add, h1]
  · intro h0
    refine ⟨hz h0, ?_⟩
    simp [tkldb_tkl_add, hz h0]

theorem load_tkls_replay_triggers_no_save_witness :
    (load_tkls sample_host 1400000001 (sample_fs sample_db) boot_state).recursion = 0 ∧
    tkldb_tkl_add sample_host 1400000002 io_ok (single_tkl 25 sample_zline)
        (load_tkls sample_host 1400000001 (sample_fs sample_db) boot_state) (sample_fs sample_db)
      = save_tkls sample_host 1400000002 io_ok (single_tkl 25 sample_zline) none
          (load_tkls sample_host 1400000001 (sample_fs sample_db) boot_state)
          (sample_fs sample_db) :=
  (load_tkls_replay_triggers_no_save sample_host 1400000001 (sample_fs sample_db) boot_state
    1400000002 io_ok (single_tkl 25 sample_zline) (sample_fs sample_db)).2 (by decide)

/-! ## Theorems: a save that fails -/

theorem tmpname_of_short (file : CStr) (hlen : file.length ≤ 507) :
    tmpname file = file ++ ".tmp".toList := by
  unfold tmpname
  apply List.take_of_length_le
  have h4 : ".tmp".toList.length = 4 := by decide
  rw [List.length_append, h4]
  omega

/-- A path of exactly 511 characters is its own temporary name: `snprintf` cuts
the suffix off. -/
theorem tmpname_of_full (file : CStr) (hlen : file.length = 511) : tmpname file = file := by
  unfold tmpname
  rw [← hlen]
  exact List.take_left' rfl

theorem save_record_eq (h : Host) (io : IoOutcome) (ex : Option Nat) (fd : OutFile)
    (r : aTKline) :
    save_record h io ex fd r
      = if is_skipped h ex r then .ok fd else fprintf io fd (tkl_line h r) := by
  unfold save_record is_skipped tkl_line
  by_cases h1 : some r.addr = ex
  · simp [h1]
  · by_cases h2 : r.type = h.TKL_SPAMF
    · simp [h1, h2]
    · by_cases h3 : r.type = h.TKL_NICK
      · simp [h1, h3]
      · by_cases h4 : r.type &&& h.TKL_SPAMF = 0 <;> simp [h1, h2, h3, h4]

/-- When the loop over a bucket completes, every `fprintf` call it made
succeeded. -/
theorem save_bucket_all_ok (h : Host) (io : IoOutcome) (ex : Option Nat)
    (rs : List aTKline) :
    ∀ fd fd1 : OutFile, save_bucket h io ex fd rs = .ok fd1 →
      fd1.nprintf = fd.nprintf + (rs.filter (fun r => !is_skipped h ex r)).length ∧
      ∀ j, j < (rs.filter (fun r => !is_skipped h ex r)).length →
        io.fprintf_ok (fd.nprintf + j) = true := by
  induction rs with
  | nil =>
    intro fd fd1 hok
    simp only [save_bucket, Except.ok.injEq] at hok
    subst hok
    simp
  | cons r rs ih =>
    intro fd fd1 hok
    simp only [save_bucket, save_record_eq] at hok
    by_cases hs : is_skipped h ex r = true
    · simp only [hs, if_true] at hok
      simpa [hs] using ih fd fd1 hok
    · simp only [hs, Bool.false_eq_true, if_false, fprintf] at hok
      by_cases hp : io.fprintf_ok fd.nprintf = true
      · simp only [hp, if_true] at hok
        obtain ⟨hn, hall⟩ := ih _ fd1 hok
        have hf : (r :: rs).filter (fun r => !is_skipped h ex r)
            = r :: rs.filter (fun r => !is_skipped h ex r) := by
          simp [hs]
        rw [hf]
        constructor
        · simp only [List.length_cons]
          simp only at hn
          omega
        · intro j hj
          cases j with
          | zero => simpa using hp
          | succ j =>
            have := hall j (by simpa using hj)
            simp only at this
            rw [← this]
            congr 1
            omega
      · simp [hp] at hok

theorem save_buckets_all_ok (h : Host) (io : IoOutcome) (tklines : Nat → List aTKline)
    (ex : Option Nat) (cs : List Char) :
    ∀ fd fd1 : OutFile, save_buckets h io tklines ex fd cs = .ok fd1 →
      fd1.nprintf = fd.nprintf + ((cs.flatMap (fun c => tklines (tkl_hash c))).filter
          (fun r => !is_skipped h ex r)).length ∧
      ∀ j, j < ((cs.flatMap (fun c => tklines (tkl_hash c))).filter
          (fun r => !is_skipped h ex r)).length →
        io.fprintf_ok (fd.nprintf + j) = true := by
  induction cs with
  | nil =>
    intro fd fd1 hok
    simp only [save_buckets, Except.ok.injEq] at hok
    subst hok
    simp
  | cons c cs ih =>
    intro fd fd1 hok
    simp only [save_buckets] at hok
    cases hb : save_bucket h io ex fd (tklines (tkl_hash c)) with
    | error e => simp [hb] at hok
    | ok fd2 =>
      simp only [hb] at hok
      obtain ⟨hn1, hall1⟩ := save_bucket_all_ok h io ex _ fd fd2 hb
      obtain ⟨hn2, hall2⟩ := ih fd2 fd1 hok
      simp only [List.flatMap_cons, List.filter_append, List.length_append]
      constructor
      · omega
      · intro j hj
        by_cases hj1 : j < ((tklines (tkl_hash c)).filter (fun r => !is_skipped h ex r)).length
        · exact hall1 j hj1
        · have := hall2 (j - ((tklines (tkl_hash c)).filter
              (fun r => !is_skipped h ex r)).length) (by omega)
          rw [← this]
          congr 1
          omega

/-- When `save_tkls` got through all its writes, none of the `fprintf` calls (the
header is call 0, the records follow) failed. -/
theorem save_stream_all_ok (h : Host) (now : Int) (io : IoOutcome)
    (tklines : Nat → List aTKline) (ex : Option Nat) (fd1 : OutFile)
    (hok : save_stream h now io tklines ex = .ok fd1) :
    ∀ k, k ≤ (saved_tkls h tklines ex).length → io.fprintf_ok k = true := by
  unfold save_stream fprintf at hok
  by_cases h0 : io.fprintf_ok 0 = true
  · simp only [h0, if_true] at hok
    obtain ⟨_, hall⟩ := save_buckets_all_ok h io tklines ex bucket_letters _ fd1 hok
    rw [bucket_letters_flatMap] at hall
    intro k hk
    cases k with
    | zero => exact h0
    | succ k =>
      have := hall k (by unfold saved_tkls at hk; omega)
      simp only at this
      rw [← this]
      congr 1
      omega
  · simp [h0] at hok

/-- For a database path that fits `tmpname` with its `.tmp` suffix (at most 507
characters): when `fopen` fails or some `fprintf` fails, `save_tkls` returns and
leaves the live file, and every file other than the sibling `<file>.tmp`, as it
was. -/
theorem save_tkls_write_failure (h : Host) (now : Int) (io : IoOutcome)
    (tklines : Nat → List aTKline) (ex : Option Nat) (st : Tkldb) (fs : FS)
    (hpath : st.file.length ≤ 507)
    (hfail : io.fopen_ok = false ∨
      ∃ k, k ≤ (saved_tkls h tklines ex).length ∧ io.fprintf_ok k = false) :
    ∃ fs1 : FS, save_tkls h now io tklines ex st fs = .ok fs1 ∧
      fs1 st.file = fs st.file ∧
      ∀ p : CStr, p ≠ st.file ++ ".tmp".toList → fs1 p = fs p := by
  have htmp := tmpname_of_short st.file hpath
  have hne : st.file ≠ st.file ++ ".tmp".toList := by
    intro he
    have := congrArg List.length he
    have h4 : ".tmp".toList.length = 4 := by decide
    rw [List.length_append, h4] at this
    omega
  unfold save_tkls
  by_cases hopen : io.fopen_ok = false
  · rw [if_pos hopen]
    exact ⟨fs, rfl, rfl, fun _ _ => rfl⟩
  · rw [if_neg hopen]
    cases hs : save_stream h now io tklines ex with
    | error fd =>
      refine ⟨_, rfl, ?_, ?_⟩
      · rw [htmp]
        unfold fs_write
        rw [if_neg hne]
      · intro p hp
        rw [htmp]
        unfold fs_write
        rw [if_neg hp]
    | ok fd =>
      exfalso
      rcases hfail with h1 | ⟨k, hk, hfk⟩
      · exact hopen h1
      · have := save_stream_all_ok h now io tklines ex fd hs k hk
        rw [hfk] at this
        exact absurd this (by decide)

/-- C11 fails on the code.  When every `fprintf` is accepted and `fclose` reports
the failure (a full disk shows at the flush), `save_tkls` jumps to `ioerr` and
closes the stream a second time: undefined behaviour, with no guarantee for the
live file.  And with a database path of 511 characters the name built in
`tmpname[512]` is the path itself, so the save whose first record cannot be
written has opened, and emptied, the live file. -/
theorem save_tkls_failure_not_contained :
    save_tkls sample_host 1400000000 io_close_fails (single_tkl 25 sample_zline) none
        boot_state (sample_fs sample_db) = .undefined ∧
    long_path.length = 511 ∧
    tmpname long_path = long_path ∧
    long_path_fs long_path = some sample_db ∧
    ∃ fs1 : FS, save_tkls sample_host 1400000000 io_disk_full (single_tkl 25 sample_zline)
        none ⟨long_path, 0, 0, []⟩ long_path_fs = .ok fs1 ∧
      fs1 long_path = some [] := by
  have hlen : long_path.length = 511 := by
    unfold long_path
    rw [List.length_append, List.length_replicate]
    rfl
  have hclose : save_stream sample_host 1400000000 io_close_fails
      (single_tkl 25 sample_zline) none
      = save_stream sample_host 1400000000 io_ok (single_tkl 25 sample_zline) none := rfl
  have hs : save_stream sample_host 1400000000 io_disk_full (single_tkl 25 sample_zline) none
      = .error ⟨header_line 1400000000 ++ tkl_line sample_host sample_zline, 2⟩ := rfl
  refine ⟨?_, hlen, tmpname_of_full long_path hlen,
    by unfold long_path_fs; rw [if_pos rfl], ?_⟩
  · unfold save_tkls
    rw [if_neg (by decide), hclose, save_stream_ok]
    rfl
  · refine ⟨fs_write long_path_fs long_path [], ?_, by unfold fs_write; rw [if_pos rfl]⟩
    unfold save_tkls
    rw [if_neg (by decide), hs]
    dsimp only
    rw [tmpname_of_full long_path hlen]
    rfl

/-! ## Theorems: lines that carry no record -/

theorem next_token_none (fs : CStr) : next_token none fs = none := rfl

theorem strtoken_end {t : CStr} (ht : is_token t = true) (save : Option CStr) :
    strtoken save (some t) [' '] = (some t, none) := by
  have h1 := skip_seps_token ht []
  have h2 := span_token_end t (fun c hc => (is_token_mem ht c hc).1)
  rw [List.append_nil] at h1
  cases t with
  | nil => exact absurd rfl (is_token_ne_nil ht)
  | cons c t =>
    simp only [strtoken]
    rw [h1]
    dsimp only
    rw [h2]

theorem next_token_end {t : CStr} (ht : is_token t = true) :
    next_token (some t) [' '] = some (t, none) := by
  have h1 := skip_seps_token ht []
  have h2 := span_token_end t (fun c hc => (is_token_mem ht c hc).1)
  rw [List.append_nil] at h1
  cases t with
  | nil => exact absurd rfl (is_token_ne_nil ht)
  | cons c t =>
    simp only [next_token, strtoken]
    rw [h1]
    dsimp only
    rw [h2]

theorem skip_seps_spaces (t : CStr) (ht : ∀ c ∈ t, c = ' ') : skip_seps [' '] t = [] := by
  induction t with
  | nil => rfl
  | cons c t ih =>
    have hc : c = ' ' := ht c (List.mem_cons_self c t)
    subst hc
    simp [skip_seps, ih (fun d hd => ht d (List.mem_cons_of_mem _ hd))]

theorem no_crlf_join_sp (toks : List CStr) (ht : ∀ f ∈ toks, is_token f = true) :
    no_crlf (join_sp toks) := by
  induction toks with
  | nil => intro c hc; simp [join_sp] at hc
  | cons f fs ih =>
    cases fs with
    | nil => exact no_crlf_token (ht f (List.mem_cons_self f []))
    | cons g gs =>
      exact no_crlf_join (no_crlf_token (ht f (List.mem_cons_self f _)))
        (ih (fun x hx => ht x (List.mem_cons_of_mem f hx)))

theorem spamf_layout_head (a : CStr) (rest : List CStr) (hs : spamf_layout (a :: rest) = true) :
    ¬ (a.head? ≠ some 'F' ∧ a.head? ≠ some 'f') := by
  cases a with
  | nil => simp [spamf_layout] at hs
  | cons c a =>
    simp only [spamf_layout, Bool.or_eq_true, decide_eq_true_eq] at hs
    rcases hs with h1 | h1 <;> subst h1 <;> simp

theorem parse_line_short1 (h : Host) (now : Int) (a : CStr)
    (ha : is_token a = true) :
    parse_line h now (join_sp [a]) = none := by
  have hbody : no_crlf (join_sp [a]) := (no_crlf_token ha)
  have hs := stripcrlf_append _ [] hbody rfl
  rw [List.append_nil] at hs
  unfold parse_line
  simp only [hs]
  simp only [join_sp, strtoken_end ha, next_token_none]
  simp [strtoken_end ha, next_token_none]

theorem parse_line_short2 (h : Host) (now : Int) (a b : CStr)
    (ha : is_token a = true) (hb : is_token b = true) :
    parse_line h now (join_sp [a, b]) = none := by
  have hbody : no_crlf (join_sp [a, b]) := (no_crlf_join (no_crlf_token ha) (no_crlf_token hb))
  have hs := stripcrlf_append _ [] hbody rfl
  rw [List.append_nil] at hs
  unfold parse_line
  simp only [hs]
  simp only [join_sp, strtoken_space ha, next_token_end hb, next_token_none]
  simp [strtoken_space ha, next_token_end hb, next_token_none]

theorem parse_line_short3 (h : Host) (now : Int) (a b c : CStr)
    (ha : is_token a = true) (hb : is_token b = true) (hc : is_token c = true) :
    parse_line h now (join_sp [a, b, c]) = none := by
  have hbody : no_crlf (join_sp [a, b, c]) := (no_crlf_join (no_crlf_token ha) (no_crlf_join (no_crlf_token hb) (no_crlf_token hc)))
  have hs := stripcrlf_append _ [] hbody rfl
  rw [List.append_nil] at hs
  unfold parse_line
  simp only [hs]
  simp only [join_sp, strtoken_space ha, next_token_space hb, next_token_end hc, next_token_none]
  simp [strtoken_space ha, next_token_space hb, next_token_end hc, next_token_none]

theorem parse_line_short4 (h : Host) (now : Int) (a b c d : CStr)
    (ha : is_token a = true) (hb : is_token b = true) (hc : is_token c = true) (hd : is_token d = true) :
    parse_line h now (join_sp [a, b, c, d]) = none := by
  have hbody : no_crlf (join_sp [a, b, c, d]) := (no_crlf_join (no_crlf_token ha) (no_crlf_join (no_crlf_token hb) (no_crlf_join (no_crlf_token hc) (no_crlf_token hd))))
  have hs := stripcrlf_append _ [] hbody rfl
  rw [List.append_nil] at hs
  unfold parse_line
  simp only [hs]
  simp only [join_sp, strtoken_space ha, next_token_space hb, next_token_space hc, next_token_end hd, next_token_none]
  simp [strtoken_space ha, next_token_space hb, next_token_space hc, next_token_end hd, next_token_none]

theorem parse_line_short5 (h : Host) (now : Int) (a b c d e : CStr)
    (ha : is_token a = true) (hb : is_token b = true) (hc : is_token c = true) (hd : is_token d = true) (he : is_token e = true) :
    parse_line h now (join_sp [a, b, c, d, e]) = none := by
  have hbody : no_crlf (join_sp [a, b, c, d, e]) := (no_crlf_join (no_crlf_token ha) (no_crlf_join (no_crlf_token hb) (no_crlf_join (no_crlf_token hc) (no_crlf_join (no_crlf_token hd) (no_crlf_token he)))))
  have hs := stripcrlf_append _ [] hbody rfl
  rw [List.append_nil] at hs
  unfold parse_line
  simp only [hs]
  simp only [join_sp, strtoken_space ha, next_token_space hb, next_token_space hc, next_token_space hd, next_token_end he, next_token_none]
  simp [strtoken_space ha, next_token_space hb, next_token_space hc, next_token_space hd, next_token_end he, next_token_none]

theorem parse_line_short6 (h : Host) (now : Int) (a b c d e f : CStr)
    (ha : is_token a = true) (hb : is_token b = true) (hc : is_token c = true) (hd : is_token d = true) (he : is_token e = true) (hf : is_token f = true) :
    parse_line h now (join_sp [a, b, c, d, e, f]) = none := by
  have hbody : no_crlf (join_sp [a, b, c, d, e, f]) := (no_crlf_join (no_crlf_token ha) (no_crlf_join (no_crlf_token hb) (no_crlf_join (no_crlf_token hc) (no_crlf_join (no_crlf_token hd) (no_crlf_join (no_crlf_token he) (no_crlf_token hf))))))
  have hs := stripcrlf_append _ [] hbody rfl
  rw [List.append_nil] at hs
  unfold parse_line
  simp only [hs]
  simp only [join_sp, strtoken_space ha, next_token_space hb, next_token_space hc, next_token_space hd, next_token_space he, next_token_end hf, next_token_none]
  simp [strtoken_space ha, next_token_space hb, next_token_space hc, next_token_space hd, next_token_space he, next_token_end hf, next_token_none]

theorem parse_line_short7 (h : Host) (now : Int) (a b c d e f g : CStr)
    (ha : is_token a = true) (hb : is_token b = true) (hc : is_token c = true) (hd : is_token d = true) (he : is_token e = true) (hf : is_token f = true) (hg : is_token g = true)
    (hFf : ¬ (a.head? ≠ some 'F' ∧ a.head? ≠ some 'f')) :
    parse_line h now (join_sp [a, b, c, d, e, f, g]) = none := by
  have hbody : no_crlf (join_sp [a, b, c, d, e, f, g]) := (no_crlf_join (no_crlf_token ha) (no_crlf_join (no_crlf_token hb) (no_crlf_join (no_crlf_token hc) (no_crlf_join (no_crlf_token hd) (no_crlf_join (no_crlf_token he) (no_crlf_join (no_crlf_token hf) (no_crlf_token hg)))))))
  have hs := stripcrlf_append _ [] hbody rfl
  rw [List.append_nil] at hs
  unfold parse_line
  simp only [hs]
  simp only [join_sp, strtoken_space ha, next_token_space hb, next_token_space hc, next_token_space hd, next_token_space he, next_token_space hf, next_token_end hg, next_token_none]
  simp [strtoken_space ha, next_token_space hb, next_token_space hc, next_token_space hd, next_token_space he, next_token_space hf, next_token_end hg, next_token_none, hFf]

theorem parse_line_short8 (h : Host) (now : Int) (a b c d e f g i : CStr)
    (ha : is_token a = true) (hb : is_token b = true) (hc : is_token c = true) (hd : is_token d = true) (he : is_token e = true) (hf : is_token f = true) (hg : is_token g = true) (hi : is_token i = true)
    (hFf : ¬ (a.head? ≠ some 'F' ∧ a.head? ≠ some 'f')) :
    parse_line h now (join_sp [a, b, c, d, e, f, g, i]) = none := by
  have hbody : no_crlf (join_sp [a, b, c, d, e, f, g, i]) := (no_crlf_join (no_crlf_token ha) (no_crlf_join (no_crlf_token hb) (no_crlf_join (no_crlf_token hc) (no_crlf_join (no_crlf_token hd) (no_crlf_join (no_crlf_token he) (no_crlf_join (no_crlf_token hf) (no_crlf_join (no_crlf_token hg) (no_crlf_token hi))))))))
  have hs := stripcrlf_append _ [] hbody rfl
  rw [List.append_nil] at hs
  unfold parse_line
  simp only [hs]
  simp only [join_sp, strtoken_space ha, next_token_space hb, next_token_space hc, next_token_space hd, next_token_space he, next_token_space hf, next_token_space hg, next_token_end hi, next_token_none]
  simp [strtoken_space ha, next_token_space hb, next_token_space hc, next_token_space hd, next_token_space he, next_token_space hf, next_token_space hg, next_token_end hi, next_token_none, hFf]

theorem parse_line_eol (h : Host) (now : Int) (t eol : CStr) (ht : no_crlf t)
    (he : is_eol eol = true) : parse_line h now (t ++ eol) = parse_line h now t := by
  have h1 := stripcrlf_append t eol ht he
  have h2 := stripcrlf_append t [] ht rfl
  rw [List.append_nil] at h2
  unfold parse_line
  simp only [h1, h2]

/-- The loop body skips a data line that has fewer fields than its layout
requires. -/
theorem parse_line_short (h : Host) (now : Int) (toks : List CStr)
    (hne : toks ≠ []) (ht : ∀ f ∈ toks, is_token f = true)
    (hlen : toks.length < fields_required toks) :
    parse_line h now (join_sp toks) = none := by
  rcases toks with _ | ⟨a, _ | ⟨b, _ | ⟨c, _ | ⟨d, _ | ⟨e, _ | ⟨f, _ | ⟨g, _ | ⟨i, _ | ⟨j, rest⟩⟩⟩⟩⟩⟩⟩⟩⟩
  · exact absurd rfl hne
  · exact parse_line_short1 h now a (ht a (by simp))
  · exact parse_line_short2 h now a b (ht a (by simp)) (ht b (by simp))
  · exact parse_line_short3 h now a b c (ht a (by simp)) (ht b (by simp)) (ht c (by simp))
  · exact parse_line_short4 h now a b c d (ht a (by simp)) (ht b (by simp)) (ht c (by simp))
      (ht d (by simp))
  · exact parse_line_short5 h now a b c d e (ht a (by simp)) (ht b (by simp)) (ht c (by simp))
      (ht d (by simp)) (ht e (by simp))
  · exact parse_line_short6 h now a b c d e f (ht a (by simp)) (ht b (by simp))
      (ht c (by simp)) (ht d (by simp)) (ht e (by simp)) (ht f (by simp))
  · have hs : spamf_layout [a, b, c, d, e, f, g] = true := by
      by_contra hn
      simp [fields_required, hn] at hlen
    exact parse_line_short7 h now a b c d e f g (ht a (by simp)) (ht b (by simp))
      (ht c (by simp)) (ht d (by simp)) (ht e (by simp)) (ht f (by simp)) (ht g (by simp))
      (spamf_layout_head a _ hs)
  · have hs : spamf_layout [a, b, c, d, e, f, g, i] = true := by
      by_contra hn
      simp [fields_required, hn] at hlen
    exact parse_line_short8 h now a b c d e f g i (ht a (by simp)) (ht b (by simp))
      (ht c (by simp)) (ht d (by simp)) (ht e (by simp)) (ht f (by simp)) (ht g (by simp))
      (ht i (by simp)) (spamf_layout_head a _ hs)
  · exfalso
    unfold fields_required at hlen
    simp only [List.length_cons] at hlen
    split at hlen <;> omega

/-- The loop body skips a blank line, a comment and a line with too few fields. -/
theorem parse_line_skipped (h : Host) (now : Int) (t eol : CStr) (hsk : skipped_line t)
    (he : is_eol eol = true) : parse_line h now (t ++ eol) = none := by
  rcases hsk with hblank | hcomment | ⟨toks, hne, ht, hlen, rfl⟩
  · have hn : no_crlf t := by
      intro c hc
      rw [hblank c hc]
      exact ⟨by decide, by decide⟩
    rw [parse_line_eol h now t eol hn he]
    have hs := stripcrlf_append t [] hn rfl
    rw [List.append_nil] at hs
    have hhead : t.head? ≠ some '#' := by
      cases t with
      | nil => simp
      | cons c t =>
        rw [hblank c (List.mem_cons_self c t)]
        simp
    unfold parse_line
    simp only [hs, hhead, if_false, strtoken, skip_seps_spaces t hblank]
  · cases t with
    | nil => simp at hcomment
    | cons c t =>
      simp only [List.head?_cons, Option.some.injEq] at hcomment
      subst hcomment
      unfold parse_line
      simp [stripcrlf]
  · rw [parse_line_eol h now _ eol (no_crlf_join_sp toks ht) he]
    exact parse_line_short h now toks hne ht hlen

/-- C12, as stated, fails: a comment line longer than the 2047 characters one
`fgets` takes is read in two pieces; the first is skipped as a comment, and the
rest is replayed as a command, while the file without that line replays
nothing. -/
theorem load_tkls_replays_tail_of_comment :
    (long_comment_db.drop 29).head? = some '#' ∧
    (load_tkls sample_host 1400000001 (sample_fs long_comment_db) boot_state).log
      = [tail_call] ∧
    (load_tkls sample_host 1400000001
      (sample_fs ("# TKL Database v1 1400000000".toList ++ ['\n'])) boot_state).log = [] := by
  decide!

/-- C12, amended: in a file with a valid header of at most 2046 characters, before
which the lines are complete, a line of at most 2046 characters whose text, up to
its first CR (or NUL), is blank (empty or spaces only), begins with `#`, or
consists of fewer fields joined by single spaces than its layout requires (7 for a
regular record, 9 for a spamfilter) is skipped by the loop body whatever the
state, and loading the file gives the same state, hence the same commands in the
same order, as loading the file without that line; the lines after it are still
loaded. -/
theorem load_tkls_skips_bad_line (h : Host) (now : Int) (fs fs1 : FS) (st : Tkldb)
    (hdr pre line post : List Char) (hb : st.has_booted = 0) (hv : valid_header hdr)
    (hpre : complete_lines pre) (hl : '\n' ∉ line) (hlen : line.length ≤ 2046)
    (hbad : skipped_line (stripcrlf (cstr line)))
    (hfile : fs st.file = some (hdr ++ '\n' :: (pre ++ (line ++ '\n' :: post))))
    (hfile1 : fs1 st.file = some (hdr ++ '\n' :: (pre ++ post))) :
    (∀ st1 : Tkldb, load_line h now st1 (cstr (line ++ ['\n'])) = st1) ∧
    load_tkls h now fs st = load_tkls h now fs1 st := by
  have hbody : ∀ st1 : Tkldb, load_line h now st1 (cstr (line ++ ['\n'])) = st1 := by
    intro st1
    apply load_line_of_parse_none
    rw [parse_line_stripcrlf, stripcrlf_cstr_newline]
    have := parse_line_skipped h now _ [] hbad rfl
    rwa [List.append_nil] at this
  exact ⟨hbody, load_tkls_line_skipped h now fs fs1 st hdr pre line post hb hv hpre hl hlen
    hbody hfile hfile1⟩

theorem load_tkls_skips_bad_line_witness :
    load_tkls sample_host 1400000001
        (sample_fs ("# TKL Database v1 1400000000".toList ++ '\n' ::
          ("Z * 1.2.3.4 admin 100 0 spam\n".toList ++
            ("G *bot* *.example.net oper\r".toList ++ '\n' ::
              "Z * 5.6.7.8 admin 200 0 more spam\n".toList)))) boot_state
      = load_tkls sample_host 1400000001
        (sample_fs ("# TKL Database v1 1400000000".toList ++ '\n' ::
          ("Z * 1.2.3.4 admin 100 0 spam\n".toList ++
            "Z * 5.6.7.8 admin 200 0 more spam\n".toList))) boot_state :=
  (load_tkls_skips_bad_line sample_host 1400000001 _ _ boot_state
    "# TKL Database v1 1400000000".toList "Z * 1.2.3.4 admin 100 0 spam\n".toList
    "G *bot* *.example.net oper\r".toList "Z * 5.6.7.8 admin 200 0 more spam\n".toList
    (by decide) ⟨⟨" v1 1400000000".toList, by decide⟩, by decide, by decide⟩
    (Or.inr ⟨"Z * 1.2.3.4 admin 100 0 spam".toList, by decide⟩) (by decide) (by decide)
    (Or.inr (Or.inr ⟨["G".toList, "*bot*".toList, "*.example.net".toList, "oper".toList],
      by decide, by decide, by decide, by decide⟩))
    (by decide) (by decide)).2

/-! ## Theorems: the guard of `bs_banned` -/

/-- Past the guard test, with a target that resolves, `bs_banned` reserves a
slot, runs the host's ban check of the target channel with the guard so extended,
and releases the slot. -/
theorem bs_banned_body_delegates {Client : Type} (H : ChanHost Client)
    (isb : aChannel → Guard → Res (Option Ban × Guard)) (chptr : aChannel) (ban : CStr)
    (g : Guard) (tok : CStr) (T : aChannel)
    (hgh : guard_has g chptr.chname = false) (hlen : ban.length < 64)
    (htok : ban_target ban = some tok) (hch : H.get_channel tok = some T) :
    bs_banned_body H isb chptr ban g
      = bs_release (reserve_slot g tok).1 (isb T (reserve_slot g tok).2) := by
  unfold bs_banned_body
  rw [hgh, if_neg (by simp), if_neg (by omega)]
  dsimp only
  rw [show (strtok (strtok [] (some ban) [':']).2 none [':']).1 = ban_target ban from rfl, htok]
  dsimp only
  rw [hch]
  dsimp only
  cases isb T (reserve_slot g tok).2 with
  | ok r => rfl
  | out_of_fuel => rfl
  | undefined => rfl

/-- C15 fails on the code: a `~S` ban of 64 characters that `bs_param` accepts and
whose target no channel lookup finds fills `banstr[64]` without a terminator, so
the second `strtok` reads past the array: `bs_banned` has undefined behaviour
instead of returning 0, for every nesting depth, and so has the host's ban check
of a channel that carries this ban. -/
theorem bs_banned_overruns_banstr :
    long_ban.length = 64 ∧
    bs_param long_ban = some long_ban ∧
    ban_target long_ban = some ('#' :: List.replicate 60 'c') ∧
    chain_host.get_channel ('#' :: List.replicate 60 'c') = none ∧
    (∀ (fuel : Nat) (chktype : Int),
      bs_banned chain_host fuel () chan_a long_ban chktype bs_guard_init = .undefined) ∧
    ∀ (fuel : Nat) (chktype : Int),
      is_banned chain_host (fuel + 1) () chan_long chktype bs_guard_init = .undefined := by
  refine ⟨by decide, by decide, by decide, by decide, ?_, ?_⟩
  · intro fuel chktype
    rfl
  · intro fuel chktype
    rfl

theorem set_length_append_replicate (g : Guard) (v : Option CStr) (k : Nat) :
    (g ++ List.replicate (k + 1) none).set g.length v = g ++ v :: List.replicate k none := by
  rw [List.set_append_right _ _ (le_refl _), Nat.sub_self, List.replicate_succ]
  rfl

theorem first_free_full (g : Guard) (hfull : ∀ e ∈ g, e ≠ none) : first_free g = none := by
  induction g with
  | nil => rfl
  | cons e g ih =>
    cases e with
    | none => exact absurd rfl (hfull none (List.mem_cons_self _ _))
    | some s =>
      simp [first_free, ih (fun x hx => hfull x (List.mem_cons_of_mem _ hx))]

/-- With every slot occupied the guard grows by 32 slots: the old entries stay, the
name goes to the first new slot and the 31 others are empty. -/
theorem reserve_slot_full (g : Guard) (tok : CStr) (hfull : ∀ e ∈ g, e ≠ none) :
    reserve_slot g tok = (g.length, g ++ some tok :: List.replicate 31 none) := by
  unfold reserve_slot
  rw [first_free_full g hfull]
  dsimp only
  rw [set_length_append_replicate g (some tok) 31]

/-- The data of one delegation step in the nest of 34 channels. -/
theorem nest_step_facts : ∀ k, k < 33 →
    guard_has (nest_guard k) (nest_chan k).chname = false ∧
    (nest_ban (k + 1)).length < 64 ∧
    ban_target (nest_ban (k + 1)) = some (nest_spelled (k + 1)) ∧
    nest_host.get_channel (nest_spelled (k + 1)) = some (nest_chan (k + 1)) ∧
    reserve_slot (nest_guard k) (nest_spelled (k + 1)) = (k, nest_guard (k + 1)) := by
  decide!

/-- C18: when every slot of the guard is occupied, the reservation of `bs_banned`
grows the guard by exactly 32 slots: every stored name stays at its index, the new
name is stored at the first new index and the other 31 new slots are empty; and a
call of `bs_banned` that reaches the reservation (the checked channel is not in
the guard, the ban has been copied whole into `banstr`, its target resolves) runs
the host's ban check of the target on that grown guard and clears the slot on
return.  In the nest of 34 channels, each delegating to the next, the guard of
`MOD_INIT` (32 empty slots) is `nest_guard 0`, the `k`-th nested `bs_banned` call
enters with `nest_guard k` and hands `nest_guard (k + 1)` to the host's check of
the next channel, so with 33 delegations active the guard is `nest_guard 33`: 64
slots, the first 32 names at their indices, the 33rd name in slot 32, 31 empty
slots; the whole check returns banned with all 64 slots cleared. -/
theorem bs_banned_grows_guard {Client : Type} (H : ChanHost Client) (fuel : Nat)
    (sptr : Client) (chptr : aChannel) (ban : CStr) (chktype : Int)
    (g : Guard) (tok : CStr) (T : aChannel)
    (hfull : ∀ e ∈ g, e ≠ none) :
    reserve_slot g tok = (g.length, g ++ some tok :: List.replicate 31 none) ∧
    (g ++ some tok :: List.replicate 31 none).length = g.length + 32 ∧
    (∀ i, i < g.length → (g ++ some tok :: List.replicate 31 none)[i]? = g[i]?) ∧
    (guard_has g chptr.chname = false → ban.length < 64 → ban_target ban = some tok →
      H.get_channel tok = some T →
      bs_banned H fuel sptr chptr ban chktype g
        = bs_release g.length
            (is_banned H fuel sptr T chktype (g ++ some tok :: List.replicate 31 none))) ∧
    nest_guard 0 = bs_guard_init ∧
    (∀ k, k < 33 → ∀ (fuel1 : Nat) (chktype1 : Int),
      bs_banned nest_host fuel1 () (nest_chan k) (nest_ban (k + 1)) chktype1 (nest_guard k)
        = bs_release k
            (is_banned nest_host fuel1 () (nest_chan (k + 1)) chktype1 (nest_guard (k + 1)))) ∧
    (∀ e ∈ nest_guard 32, e ≠ none) ∧
    nest_guard 33
      = nest_guard 32 ++ some (nest_spelled 33) :: List.replicate 31 none ∧
    (nest_guard 33).length = 64 ∧
    (∀ i, i < 32 → (nest_guard 33)[i]? = some (some (nest_spelled (i + 1))) ∧
      (nest_guard 32)[i]? = some (some (nest_spelled (i + 1)))) ∧
    is_banned nest_host 34 () (nest_chan 0) 0 bs_guard_init
      = .ok (some ⟨nest_ban 1⟩, List.replicate 64 none) := by
  refine ⟨reserve_slot_full g tok hfull, ?_, ?_, ?_, by decide!, ?_, by decide!, by decide!,
    by decide!, by decide!, by decide!⟩
  · simp
  · intro i hi
    exact List.getElem?_append_left hi
  · intro hgh hlen htok hch
    unfold bs_banned
    rw [bs_banned_body_delegates H _ chptr ban g tok T hgh hlen htok hch,
      reserve_slot_full g tok hfull]
  · intro k hk fuel1 chktype1
    obtain ⟨h1, h2, h3, h4, h5⟩ := nest_step_facts k hk
    unfold bs_banned
    rw [bs_banned_body_delegates nest_host _ (nest_chan k) _ _ _ _ h1 h2 h3 h4, h5]

theorem bs_banned_grows_guard_witness :
    reserve_slot (nest_guard 32) (nest_spelled 33)
      = (32, nest_guard 32 ++ some (nest_spelled 33) :: List.replicate 31 none) ∧
    bs_banned nest_host 1 () (nest_chan 32) (nest_ban 33) 0 (nest_guard 32)
      = bs_release 32
          (is_banned nest_host 1 () (nest_chan 33) 0
            (nest_guard 32 ++ some (nest_spelled 33) :: List.replicate 31 none)) ∧
    bs_banned nest_host 1 () (nest_chan 32) (nest_ban 33) 0 (nest_guard 32)
      = .ok (1, nest_guard 32 ++ List.replicate 32 none) :=
  ⟨(bs_banned_grows_guard nest_host 1 () (nest_chan 32) (nest_ban 33) 0 (nest_guard 32)
      (nest_spelled 33) (nest_chan 33) (by decide)).1,
   (bs_banned_grows_guard nest_host 1 () (nest_chan 32) (nest_ban 33) 0 (nest_guard 32)
      (nest_spelled 33) (nest_chan 33) (by decide)).2.2.2.1 (by decide) (by decide)
      (by decide) (by decide),
   by decide⟩

/-- C17 fails on the code: in the cycle between `#A` (ban `~S:#b`) and `#B` (ban
`~S:#a`), whatever the host's ban check does next, the first delegation runs it
on `#B` with `#b` in slot 0, the delegation nested in that runs it on `#A` with
`#a` added in slot 1, and the delegation nested in that runs it on `#B` with `#b`
added again in slot 2: the name `#b` occupies two slots at once. -/
theorem guard_holds_a_name_twice :
    (∀ isb : aChannel → Guard → Res (Option Ban × Guard),
      bs_banned_body cycle_host isb cyc_a "~S:#b".toList bs_guard_init
        = bs_release 0 (isb cyc_b (some "#b".toList :: List.replicate 31 none))) ∧
    (∀ isb : aChannel → Guard → Res (Option Ban × Guard),
      bs_banned_body cycle_host isb cyc_b "~S:#a".toList
          (some "#b".toList :: List.replicate 31 none)
        = bs_release 1
            (isb cyc_a (some "#b".toList :: some "#a".toList :: List.replicate 30 none))) ∧
    (∀ isb : aChannel → Guard → Res (Option Ban × Guard),
      bs_banned_body cycle_host isb cyc_a "~S:#b".toList
          (some "#b".toList :: some "#a".toList :: List.replicate 30 none)
        = bs_release 2
            (isb cyc_b (some "#b".toList :: some "#a".toList :: some "#b".toList
              :: List.replicate 29 none))) := by
  refine ⟨?_, ?_, ?_⟩
  · intro isb
    rw [bs_banned_body_delegates cycle_host isb cyc_a _ _ "#b".toList cyc_b (by decide)
      (by decide) (by decide) (by decide)]
    rfl
  · intro isb
    rw [bs_banned_body_delegates cycle_host isb cyc_b _ _ "#a".toList cyc_a (by decide)
      (by decide) (by decide) (by decide)]
    rfl
  · intro isb
    rw [bs_banned_body_delegates cycle_host isb cyc_a _ _ "#b".toList cyc_b (by decide)
      (by decide) (by decide) (by decide)]
    rfl

end Unreal
